import Mathlib

/-!
# Verification of the chart-engine pipeline

A shallow embedding, in Lean 4, of the four-stage pie-chart pipeline
(data processing, polar geometry, scene-graph assembly, style resolution)
of the `chart-engine` repository, together with theorems settling the
specification's claims about it.

Modelling conventions:
* JavaScript numbers are modelled by `ℚ` (exact rational arithmetic);
  the spec's floating-point tolerances become exact equalities.
* `Math.cos` / `Math.sin` are abstracted as an arbitrary pair of functions
  `Trig`, since no claim depends on their analytic values.
* JavaScript `Map` objects (insertion-ordered, last-set-wins) are modelled
  by association lists with `mapSet` / `mapGet` below.
* `Date.now()` timestamps are omitted: no claim mentions them.
-/

namespace ChartEngine

/-! ## Data layer: scalars and rows (src/data/schema.ts, src/data/types.ts) -/

/-- A scalar cell value of a `DataRow`: string, number, or null. -/
inductive Scalar where
  | str (s : String)
  | num (q : ℚ)
  | null
deriving DecidableEq, Repr

/-- A data row: a mapping of field id to scalar (`Record<string, ...>`),
modelled as an association list (first binding wins on lookup). -/
def DataRow := List (String × Scalar)

instance : DecidableEq DataRow := by unfold DataRow; infer_instance

/-- Property lookup `row[field]`: `none` models JS `undefined`. -/
def rowGet (row : DataRow) (field : String) : Option Scalar :=
  match row with
  | [] => none
  | (k, v) :: rest => if k = field then some v else rowGet rest field

/-- Stand-in for JavaScript number-to-string coercion `String(n)`.
Only injectivity matters to the claims (no claim uses a numeric category). -/
def numToStr (q : ℚ) : String := toString q

/-- List of decimal digit characters, interpreted as a natural number,
or `none` when some character is not a digit or the list is empty. -/
def digitsVal : List Char → Option ℕ
  | [] => none
  | [c] => if c.isDigit then some (c.toNat - '0'.toNat) else none
  | c :: rest =>
      match digitsVal rest, (if c.isDigit then some (c.toNat - '0'.toNat) else none) with
      | some n, some d => some (d * 10 ^ rest.length + n)
      | _, _ => none

/-- Model of `Number(s)` on a (trimmed, sign-stripped, nonempty) character list:
decimal digits with at most one dot.  `none` models `NaN`.
(Exponent/hex forms of JS numeric strings are not modelled; no claim
exercises a string-valued measure.) -/
def parseDecimal (chars : List Char) : Option ℚ :=
  match chars.splitOn '.' with
  | [ip] => (digitsVal ip).map (fun n => (n : ℚ))
  | [ip, fp] =>
      match ip, fp with
      | [], [] => none
      | [], _ => (digitsVal fp).map (fun f => (f : ℚ) / 10 ^ fp.length)
      | _, [] => (digitsVal ip).map (fun n => (n : ℚ))
      | _, _ =>
          match digitsVal ip, digitsVal fp with
          | some n, some f => some ((n : ℚ) + (f : ℚ) / 10 ^ fp.length)
          | _, _ => none
  | _ => none

/-- JavaScript `Number(s)` for strings (decimal subset); `none` is `NaN`. -/
def jsStringToNumber (s : String) : Option ℚ :=
  let t := s.trim
  if t = "" then some 0
  else match t.data with
    | '-' :: rest => (parseDecimal rest).map (fun q => -q)
    | '+' :: rest => parseDecimal rest
    | chars => parseDecimal chars

/-- Model of `String(row[categoryField] ?? 'Unknown')` from `processPieData`. -/
def rowCategory (row : DataRow) (field : String) : String :=
  match rowGet row field with
  | none => "Unknown"
  | some .null => "Unknown"
  | some (.str s) => s
  | some (.num q) => numToStr q

/-- Model of `Number(row[valueField] ?? 0)` followed by the `isNaN(v) ? 0 : v`
coercion from `processPieData`. -/
def rowNumeric (row : DataRow) (field : String) : ℚ :=
  match rowGet row field with
  | none => 0
  | some .null => 0
  | some (.num q) => q
  | some (.str s) => (jsStringToNumber s).getD 0

/-- Dimension descriptor (only the id matters to the processor). -/
structure Dimension where
  id : String
deriving DecidableEq, Repr

/-- Measure descriptor: id and (optional) aggregation method. -/
structure Measure where
  id : String
  aggregation : Option String := none
deriving DecidableEq, Repr

/-- Model of `ChartData`: descriptors, rows, and the optional `meta.mapping` hints
(`meta?.mapping?.x` and `meta?.mapping?.value` flattened to two options). -/
structure ChartData where
  dimensions : List Dimension
  measures : List Measure
  data : List DataRow
  mappingX : Option String := none
  mappingValue : Option String := none
deriving DecidableEq

/-! ## Stable ID generation (`generateSliceId`, src/data/processor) -/

/-- Characters kept by the slug regex `[^a-z0-9]` (after lowercasing). -/
def isSlugChar (c : Char) : Bool :=
  ('a' ≤ c && c ≤ 'z') || ('0' ≤ c && c ≤ '9')

/-- Model of `.replace(/[^a-z0-9]+/g, '-')`: each maximal run of non-slug
characters collapses to a single hyphen. -/
def collapseRuns : List Char → List Char
  | [] => []
  | [c] => if isSlugChar c then [c] else ['-']
  | c :: d :: rest =>
      if isSlugChar c then c :: collapseRuns (d :: rest)
      else if isSlugChar d then '-' :: collapseRuns (d :: rest)
      else collapseRuns (d :: rest)

/-- Model of `.replace(/^-|-$/g, '')`: drop one leading and one trailing hyphen. -/
def stripHyphens (l : List Char) : List Char :=
  let l₁ := match l with
    | '-' :: rest => rest
    | other => other
  match l₁.getLast? with
  | some '-' => l₁.dropLast
  | _ => l₁

/-- The slug of a label: lowercase (`.toLowerCase()`, character-wise),
collapse non-alphanumeric runs to hyphens, trim leading/trailing
hyphen. -/
def slug (label : String) : String :=
  ⟨stripHyphens (collapseRuns (label.data.map Char.toLower))⟩

/-- Model of `generateSliceId` (src/data/processor): blank labels fall back to
`slice-<index>`; otherwise `slice-<slug>`, falling back to the index
again when the slug is empty.  (`label.data.all isWhitespace` models
`!label || label.trim() === ''`.) -/
def generateSliceId (label : String) (index : ℕ) : String :=
  if label.data.all (·.isWhitespace) then "slice-" ++ toString index
  else
    let normalized := slug label
    if normalized = "" then "slice-" ++ toString index
    else "slice-" ++ normalized

/-! ## Aggregation (`aggregate`, src/data/processor) -/

/-- Sum of a list of rationals (`values.reduce((acc, v) => acc + v, 0)`). -/
def listSum (values : List ℚ) : ℚ := values.foldl (· + ·) 0

/-- Model of `aggregate(values, method)`: `sum`, `avg`, `min`, `max`, `count`;
any unknown method falls back to `sum`.  The `min`/`max` branches guard
`values.length > 0` exactly as the source does. -/
def aggregate (values : List ℚ) (method : String) : ℚ :=
  if method = "avg" then
    if values.length > 0 then listSum values / values.length else 0
  else if method = "min" then
    match values with
    | [] => 0
    | v :: rest => rest.foldl min v
  else if method = "max" then
    match values with
    | [] => 0
    | v :: rest => rest.foldl max v
  else if method = "count" then (values.length : ℚ)
  else listSum values

/-! ## Percentages (`computePercentages`, src/data/processor) -/

/-- Model of `computePercentages`: `v/total*100` per value, or the equal share
`100/n` for every value when the total is 0. -/
def computePercentages (values : List ℚ) : List ℚ :=
  let total := listSum values
  if total = 0 then
    let equalShare : ℚ := if values.length > 0 then 100 / values.length else 0
    values.map (fun _ => equalShare)
  else
    values.map (fun v => v / total * 100)

/-! ## Grouping and the main processor (`processPieData`) -/

/-- One group accumulated by the `groups` Map in `processPieData`. -/
structure Group where
  label : String
  values : List ℚ
  rowIndices : List ℕ
deriving DecidableEq

/-- One step of the grouping loop: append the value/index to the group
keyed by `key`, or append a fresh group (JS `Map` insertion order). -/
def addToGroups (key : String) (v : ℚ) (idx : ℕ) : List Group → List Group
  | [] => [⟨key, [v], [idx]⟩]
  | g :: gs =>
      if g.label = key then ⟨g.label, g.values ++ [v], g.rowIndices ++ [idx]⟩ :: gs
      else g :: addToGroups key v idx gs

/-- The `chartData.data.forEach` grouping loop of `processPieData`. -/
def groupRowsAux (catF valF : String) : List DataRow → ℕ → List Group → List Group
  | [], _, acc => acc
  | row :: rest, i, acc =>
      groupRowsAux catF valF rest (i + 1)
        (addToGroups (rowCategory row catF) (rowNumeric row valF) i acc)

def groupRows (catF valF : String) (rows : List DataRow) : List Group :=
  groupRowsAux catF valF rows 0 []

/-- Pre-sort slice record (`rawSlices` entries in `processPieData`). -/
structure RawSlice where
  label : String
  rawValue : ℚ
  rowIndices : List ℕ
deriving DecidableEq

/-- Insertion step of the stable descending sort
(`rawSlices.sort((a, b) => b.rawValue - a.rawValue)`): the element is
placed before the first entry it is `≥`, which keeps equal-valued
entries in encounter order (JS `Array.prototype.sort` is stable). -/
def insertDesc (x : RawSlice) : List RawSlice → List RawSlice
  | [] => [x]
  | y :: ys => if x.rawValue ≥ y.rawValue then x :: y :: ys else y :: insertDesc x ys

/-- Stable descending sort by `rawValue`. -/
def sortDesc : List RawSlice → List RawSlice
  | [] => []
  | x :: xs => insertDesc x (sortDesc xs)

/-- Model of `ProcessedSlice` (src/data/types.ts). -/
structure ProcessedSlice where
  sliceId : String
  label : String
  rawValue : ℚ
  percentage : ℚ
  originalRowIndices : List ℕ
deriving DecidableEq

/-- Model of `ProcessedPieData` (src/data/types.ts). -/
structure ProcessedPieData where
  slices : List ProcessedSlice
  total : ℚ
  categoryField : String
  valueField : String
deriving DecidableEq

/-- Model of `ProcessorConfig` (optional field overrides). -/
structure ProcessorConfig where
  categoryField : Option String := none
  valueField : Option String := none
  aggregation : Option String := none

/-- The final `rawSlices.map((slice, index) => ...)` of `processPieData`:
walks the sorted slices and the percentage list in lockstep
(`percentages[index]`), feeding the running index to `generateSliceId`. -/
def mkSlices : List RawSlice → List ℚ → ℕ → List ProcessedSlice
  | [], _, _ => []
  | s :: ss, ps, i =>
      { sliceId := generateSliceId s.label i
        label := s.label
        rawValue := s.rawValue
        percentage := ps.headD 0
        originalRowIndices := s.rowIndices } :: mkSlices ss ps.tail (i + 1)

/-- Model of `config.categoryField ?? chartData.meta?.mapping?.x ?? chartData.dimensions[0]?.id ?? 'x'`. -/
def resolveCategoryField (chartData : ChartData) (config : ProcessorConfig) : String :=
  config.categoryField.getD
    (chartData.mappingX.getD
      (((chartData.dimensions.head?).map Dimension.id).getD "x"))

/-- Model of `config.valueField ?? chartData.meta?.mapping?.value ?? chartData.measures[0]?.id ?? 'value'`. -/
def resolveValueField (chartData : ChartData) (config : ProcessorConfig) : String :=
  config.valueField.getD
    (chartData.mappingValue.getD
      (((chartData.measures.head?).map Measure.id).getD "value"))

/-- Model of `config.aggregation ?? chartData.measures.find(m => m.id === valueField)?.aggregation ?? 'sum'`. -/
def resolveAggregation (chartData : ChartData) (config : ProcessorConfig)
    (valueField : String) : String :=
  config.aggregation.getD
    ((((chartData.measures.find? (fun m => m.id = valueField)).bind
        Measure.aggregation)).getD "sum")

/-- The sorted pre-slice list built by `processPieData` before percentages
and ids are attached (grouping, aggregation, stable descending sort). -/
def rawSlicesOf (chartData : ChartData) (config : ProcessorConfig) : List RawSlice :=
  let categoryField := resolveCategoryField chartData config
  let valueField := resolveValueField chartData config
  let aggregationMethod := resolveAggregation chartData config valueField
  let groups := groupRows categoryField valueField chartData.data
  sortDesc (groups.map (fun g => ⟨g.label, aggregate g.values aggregationMethod, g.rowIndices⟩))

/-- Model of `processPieData` (src/data/processor). -/
def processPieData (chartData : ChartData) (config : ProcessorConfig) : ProcessedPieData :=
  let categoryField := resolveCategoryField chartData config
  let valueField := resolveValueField chartData config
  let rawSlices := rawSlicesOf chartData config
  let values := rawSlices.map RawSlice.rawValue
  let percentages := computePercentages values
  let total := listSum values
  { slices := mkSlices rawSlices percentages 0
    total := total
    categoryField := categoryField
    valueField := valueField }

/-! ## JS `Map` model: insertion-ordered association list -/

/-- Model of `Map.prototype.set`: update in place when the key exists (keeping its
position), else append. -/
def mapSet {α : Type} (k : String) (v : α) : List (String × α) → List (String × α)
  | [] => [(k, v)]
  | (k', v') :: rest => if k' = k then (k, v) :: rest else (k', v') :: mapSet k v rest

/-- Model of `Map.prototype.get`: `none` models `undefined`. -/
def mapGet {α : Type} (k : String) : List (String × α) → Option α
  | [] => none
  | (k', v') :: rest => if k' = k then some v' else mapGet k rest

/-- A `Map` built by `set`-ing a list of entries in order. -/
def buildMap {α : Type} (l : List (String × α)) : List (String × α) :=
  l.foldl (fun m kv => mapSet kv.1 kv.2 m) []

/-! ## Geometry layer: types (src/geometry/types.ts) -/

/-- The ambient real-number functions `Math.cos`, `Math.sin`, `Math.PI`,
abstracted: no claim depends on their analytic values. -/
structure Trig where
  cos : ℚ → ℚ
  sin : ℚ → ℚ
  pi : ℚ

/-- A 2D point in chart space. -/
structure Point where
  x : ℚ
  y : ℚ
deriving DecidableEq, Repr

/-- A 2D vector for translations/offsets. -/
structure Vector where
  dx : ℚ
  dy : ℚ
deriving DecidableEq, Repr

/-- A bounding box. -/
structure BoundingBox where
  x : ℚ
  y : ℚ
  width : ℚ
  height : ℚ
deriving DecidableEq, Repr

inductive LabelAnchorMode where
  | centroid
  | edge
  | outside
deriving DecidableEq, Repr

inductive LabelSide where
  | left
  | right
  | auto
deriving DecidableEq, Repr

inductive SortOrder where
  | none
  | ascending
  | descending
deriving DecidableEq, Repr

/-- Model of `PieGeometryConfig` (src/geometry/types.ts). -/
structure PieGeometryConfig where
  center : Point
  outerRadius : ℚ
  innerRadius : ℚ
  startAngle : ℚ
  endAngle : ℚ
  padAngle : ℚ
  cornerRadius : ℚ
  labelAnchorMode : LabelAnchorMode
  labelRadiusOffset : ℚ
  sortOrder : SortOrder
deriving DecidableEq

/-- Per-slice geometry overrides. -/
structure SliceGeometryOverride where
  explodeAmount : Option ℚ := Option.none
  innerRadius : Option ℚ := Option.none
  outerRadius : Option ℚ := Option.none
  outerRadiusOffset : Option ℚ := Option.none
deriving DecidableEq

/-- Per-label geometry overrides. -/
structure LabelGeometryOverride where
  positionOffset : Option Vector := Option.none
  anchorMode : Option LabelAnchorMode := Option.none
  isManuallyPositioned : Option Bool := Option.none
  text : Option String := Option.none
deriving DecidableEq

/-- Annotation type tags. -/
inductive AnnoType where
  | circle
  | rect
  | text
  | icon
  | image
deriving DecidableEq, Repr

/-- Freeform board annotation (the free-form `metadata` record carries no
semantics in the pipeline and is not modelled). -/
structure Annotation where
  id : String
  type : AnnoType
  x : ℚ
  y : ℚ
  width : Option ℚ := Option.none
  height : Option ℚ := Option.none
  radius : Option ℚ := Option.none
  text : Option String := Option.none
  iconName : Option String := Option.none
  imageUrl : Option String := Option.none
deriving DecidableEq

/-- Model of `GeometryOverrides`: three id-keyed maps. -/
structure GeometryOverrides where
  slices : List (String × SliceGeometryOverride)
  labels : List (String × LabelGeometryOverride)
  annotations : List (String × Annotation)

/-- Model of `SliceGeometry` (src/geometry/types.ts). -/
structure SliceGeometry where
  sliceId : String
  startAngle : ℚ
  endAngle : ℚ
  midAngle : ℚ
  innerRadius : ℚ
  outerRadius : ℚ
  center : Point
  centroid : Point
  outerEdgePoint : Point
  innerEdgePoint : Point
  explodeOffset : Vector
  pathData : String
deriving DecidableEq

/-- Model of `LabelGeometry` (src/geometry/types.ts). -/
structure LabelGeometry where
  sliceId : String
  labelIndex : ℕ
  labelId : String
  anchorPoint : Point
  anchorMode : LabelAnchorMode
  offset : Vector
  side : LabelSide
  boundingBox : BoundingBox
  isManuallyPositioned : Bool
deriving DecidableEq

/-- Model of `LeaderLineGeometry` (src/geometry/types.ts). -/
structure LeaderLineGeometry where
  sliceId : String
  labelIndex : ℕ
  startPoint : Point
  endPoint : Point
  pathData : String
deriving DecidableEq

/-- Model of `PieGeometryState` (src/geometry/types.ts); the `lastUpdated`
timestamp is omitted (no claim mentions it). -/
structure PieGeometryState where
  config : PieGeometryConfig
  slices : List (String × SliceGeometry)
  labels : List LabelGeometry
  leaderLines : List LeaderLineGeometry
  annotations : List Annotation
  overrides : GeometryOverrides

/-! ## Geometry layer: pie math (src/geometry/pie.ts) -/

/-- Model of `polarToCartesian`. -/
def polarToCartesian (t : Trig) (centerX centerY radius angleInRadians : ℚ) : Point :=
  { x := centerX + radius * t.cos angleInRadians
    y := centerY + radius * t.sin angleInRadians }

/-- Model of `createArcPath`: SVG arc path string; empty when the padded span
collapses.  Number interpolation uses `numToStr`. -/
def createArcPath (t : Trig) (center : Point) (innerRadius outerRadius startAngle endAngle padAngle : ℚ) : String :=
  let actualStart := startAngle + padAngle / 2
  let actualEnd := endAngle - padAngle / 2
  if actualEnd ≤ actualStart then ""
  else
    let largeArcFlag := if actualEnd - actualStart ≤ t.pi then "0" else "1"
    let p1 := polarToCartesian t center.x center.y outerRadius actualStart
    let p2 := polarToCartesian t center.x center.y outerRadius actualEnd
    let p3 := polarToCartesian t center.x center.y innerRadius actualEnd
    let p4 := polarToCartesian t center.x center.y innerRadius actualStart
    if innerRadius ≤ 0 then
      "M " ++
      (numToStr center.x ++ " " ++ numToStr center.y ++ " " ++
       "L " ++ numToStr p1.x ++ " " ++ numToStr p1.y ++ " " ++
       "A " ++ numToStr outerRadius ++ " " ++ numToStr outerRadius ++ " 0 " ++
         largeArcFlag ++ " 1 " ++ numToStr p2.x ++ " " ++ numToStr p2.y ++ " " ++
       "Z")
    else
      "M " ++
      (numToStr p1.x ++ " " ++ numToStr p1.y ++ " " ++
       "A " ++ numToStr outerRadius ++ " " ++ numToStr outerRadius ++ " 0 " ++
         largeArcFlag ++ " 1 " ++ numToStr p2.x ++ " " ++ numToStr p2.y ++ " " ++
       "L " ++ numToStr p3.x ++ " " ++ numToStr p3.y ++ " " ++
       "A " ++ numToStr innerRadius ++ " " ++ numToStr innerRadius ++ " 0 " ++
         largeArcFlag ++ " 0 " ++ numToStr p4.x ++ " " ++ numToStr p4.y ++ " " ++
       "Z")

/-- Geometry of one slice, given the already-read override and the
running angle cursor (the body of the `processedSlices.forEach` loop in
`computePieGeometry` after the `overrides.slices.get` read). -/
def sliceGeometryCore (t : Trig) (config : PieGeometryConfig)
    (sliceOverride : Option SliceGeometryOverride)
    (slice : ProcessedSlice) (currentAngle : ℚ) : SliceGeometry :=
  let totalRange := config.endAngle - config.startAngle
  let sliceAngleSpan := slice.percentage / 100 * totalRange
  let startAngle := currentAngle
  let endAngle := currentAngle + sliceAngleSpan
  let midAngle := startAngle + sliceAngleSpan / 2
  let innerRadius := ((sliceOverride.bind SliceGeometryOverride.innerRadius).getD config.innerRadius)
  let baseOuterRadius := ((sliceOverride.bind SliceGeometryOverride.outerRadius).getD config.outerRadius)
  let outerRadius := baseOuterRadius + ((sliceOverride.bind SliceGeometryOverride.outerRadiusOffset).getD 0)
  let explodeAmount := ((sliceOverride.bind SliceGeometryOverride.explodeAmount).getD 0)
  let explodeOffset : Vector := { dx := t.cos midAngle * explodeAmount, dy := t.sin midAngle * explodeAmount }
  let effectiveCenter : Point :=
    { x := config.center.x + explodeOffset.dx, y := config.center.y + explodeOffset.dy }
  let centroid := polarToCartesian t effectiveCenter.x effectiveCenter.y ((innerRadius + outerRadius) / 2) midAngle
  let outerEdgePoint := polarToCartesian t effectiveCenter.x effectiveCenter.y outerRadius midAngle
  let innerEdgePoint := polarToCartesian t effectiveCenter.x effectiveCenter.y innerRadius midAngle
  let pathData := createArcPath t effectiveCenter innerRadius outerRadius startAngle endAngle config.padAngle
  { sliceId := slice.sliceId
    startAngle := startAngle
    endAngle := endAngle
    midAngle := midAngle
    innerRadius := innerRadius
    outerRadius := outerRadius
    center := config.center
    centroid := centroid
    outerEdgePoint := outerEdgePoint
    innerEdgePoint := innerEdgePoint
    explodeOffset := explodeOffset
    pathData := pathData }

/-- Geometry of one slice: read its override from the map, then apply
the loop body. -/
def sliceGeometryAt (t : Trig) (config : PieGeometryConfig) (overrides : GeometryOverrides)
    (slice : ProcessedSlice) (currentAngle : ℚ) : SliceGeometry :=
  sliceGeometryCore t config (mapGet slice.sliceId overrides.slices) slice currentAngle

/-- The `forEach` loop of `computePieGeometry`, producing the per-slice
geometries in iteration order while threading the angle cursor
(`currentAngle = endAngle` after each slice). -/
def computeSliceGeoms (t : Trig) (config : PieGeometryConfig) (overrides : GeometryOverrides) :
    List ProcessedSlice → ℚ → List SliceGeometry
  | [], _ => []
  | slice :: rest, currentAngle =>
      let g := sliceGeometryAt t config overrides slice currentAngle
      g :: computeSliceGeoms t config overrides rest g.endAngle

/-- Model of `computePieGeometry` (src/geometry/pie.ts): the `geometrySlices` map
is keyed by `sliceId` via `Map.set`, so later duplicates overwrite. -/
def computePieGeometry (t : Trig) (data : ProcessedPieData) (config : PieGeometryConfig)
    (overrides : GeometryOverrides) : PieGeometryState :=
  let geoms := computeSliceGeoms t config overrides data.slices config.startAngle
  { config := config
    slices := buildMap (geoms.map (fun g => (g.sliceId, g)))
    labels := []
    leaderLines := []
    annotations := []
    overrides := overrides }

/-! ## Geometry layer: labels and leader lines (src/geometry/labels.ts) -/

/-- The label computed for one slice-map entry (body of the `forEach`
in `computeLabelGeometry`), given the already-read label override. -/
def labelForSliceCore (t : Trig) (config : PieGeometryConfig)
    (override : Option LabelGeometryOverride)
    (sliceId : String) (slice : SliceGeometry) : LabelGeometry :=
  let labelIndex := 0
  let labelId := sliceId ++ "-label-" ++ toString labelIndex
  let anchorMode := ((override.bind LabelGeometryOverride.anchorMode).getD config.labelAnchorMode)
  let center : Point :=
    { x := slice.center.x + slice.explodeOffset.dx, y := slice.center.y + slice.explodeOffset.dy }
  let anchorPoint : Point :=
    match anchorMode with
    | .centroid => slice.centroid
    | .edge => slice.outerEdgePoint
    | .outside =>
        polarToCartesian t center.x center.y (slice.outerRadius + config.labelRadiusOffset) slice.midAngle
  let offset := ((override.bind LabelGeometryOverride.positionOffset).getD { dx := 0, dy := 0 })
  let finalPoint : Point := { x := anchorPoint.x + offset.dx, y := anchorPoint.y + offset.dy }
  let side : LabelSide := if t.cos slice.midAngle ≥ 0 then .right else .left
  { sliceId := sliceId
    labelIndex := labelIndex
    labelId := labelId
    anchorPoint := finalPoint
    anchorMode := anchorMode
    offset := offset
    side := side
    boundingBox := { x := finalPoint.x, y := finalPoint.y, width := 60, height := 20 }
    isManuallyPositioned := ((override.bind LabelGeometryOverride.isManuallyPositioned).getD false) }

/-- The label for one slice-map entry: read the override keyed by
`<sliceId>-label-0`, then apply the loop body. -/
def labelForSlice (t : Trig) (config : PieGeometryConfig) (overrides : GeometryOverrides)
    (sliceId : String) (slice : SliceGeometry) : LabelGeometry :=
  labelForSliceCore t config (mapGet (sliceId ++ "-label-" ++ toString 0) overrides.labels)
    sliceId slice

/-- Model of `computeLabelGeometry` (src/geometry/labels.ts): iterates the slice
map, pushing one label per slice and — when the effective anchor mode is
`outside` — one leader line from the outer edge point to the label's
final anchor point. -/
def computeLabelGeometry (t : Trig) (config : PieGeometryConfig) (overrides : GeometryOverrides) :
    List (String × SliceGeometry) → List LabelGeometry × List LeaderLineGeometry
  | [] => ([], [])
  | (sliceId, slice) :: rest =>
      let lbl := labelForSlice t config overrides sliceId slice
      let (restLabels, restLines) := computeLabelGeometry t config overrides rest
      if lbl.anchorMode = .outside then
        let startPoint := slice.outerEdgePoint
        let endPoint := lbl.anchorPoint
        let pathData := "M " ++ numToStr startPoint.x ++ " " ++ numToStr startPoint.y ++
          " L " ++ numToStr endPoint.x ++ " " ++ numToStr endPoint.y
        (lbl :: restLabels,
          { sliceId := sliceId, labelIndex := lbl.labelIndex, startPoint := startPoint,
            endPoint := endPoint, pathData := pathData } :: restLines)
      else (lbl :: restLabels, restLines)

/-- Model of `resolveGeometry` (src/geometry/index.ts): pie geometry, then labels
and leader lines, then the annotations pulled from the override map
(`Array.from(overrides.annotations.values())`). -/
def resolveGeometry (t : Trig) (data : ProcessedPieData) (config : PieGeometryConfig)
    (overrides : GeometryOverrides) : PieGeometryState :=
  let state := computePieGeometry t data config overrides
  let lbls := computeLabelGeometry t config overrides state.slices
  { state with
    labels := lbls.1
    leaderLines := lbls.2
    annotations := overrides.annotations.map Prod.snd }

/-! ## Styling layer: types (src/styles/types.ts) -/

structure ColorStop where
  offset : ℚ
  color : String
  opacity : Option ℚ := Option.none
deriving DecidableEq

inductive GradientKind where
  | linear
  | radial
deriving DecidableEq, Repr

structure GradientStyle where
  type : GradientKind
  stops : List ColorStop
  angle : Option ℚ := Option.none
  cx : Option ℚ := Option.none
  cy : Option ℚ := Option.none
  r : Option ℚ := Option.none
deriving DecidableEq

/-- Model of `fill` duality: a solid color string or a gradient descriptor
(`string | GradientStyle`). -/
inductive Fill where
  | solid (color : String)
  | gradient (g : GradientStyle)
deriving DecidableEq

structure ShadowStyle where
  color : String
  blur : ℚ
  offsetX : ℚ
  offsetY : ℚ
deriving DecidableEq

/-- Model of `string | number` font weight. -/
inductive FontWeight where
  | str (s : String)
  | num (q : ℚ)
deriving DecidableEq

/-- Model of `'start' | 'middle' | 'end'` (the last is `end'`, `end` being a Lean
keyword). -/
inductive TextAnchor where
  | start
  | middle
  | end'
deriving DecidableEq, Repr

/-- Model of `NodeStyle`: every visual field optional. -/
structure NodeStyle where
  fill : Option Fill := Option.none
  fillOpacity : Option ℚ := Option.none
  stroke : Option String := Option.none
  strokeWidth : Option ℚ := Option.none
  strokeDashArray : Option String := Option.none
  opacity : Option ℚ := Option.none
  shadow : Option ShadowStyle := Option.none
  fontFamily : Option String := Option.none
  fontSize : Option ℚ := Option.none
  fontWeight : Option FontWeight := Option.none
  fontColor : Option String := Option.none
  textAnchor : Option TextAnchor := Option.none
  iconName : Option String := Option.none
  iconSize : Option ℚ := Option.none
  iconColor : Option String := Option.none
  className : Option String := Option.none
deriving DecidableEq

/-- Per-node transform override (`NodeTransform`): all fields optional. -/
structure NodeTransform where
  x : Option ℚ := Option.none
  y : Option ℚ := Option.none
  scale : Option ℚ := Option.none
  rotate : Option ℚ := Option.none
deriving DecidableEq

structure Typography where
  fontFamily : String
  fontSize : ℚ
  fontWeight : Option FontWeight := Option.none
  fontColor : String
  textAnchor : Option TextAnchor := Option.none
deriving DecidableEq

/-- Model of `ChartTheme` (src/styles/types.ts). -/
structure ChartTheme where
  primaryColors : List String
  backgroundColor : String
  defaultTypography : Typography
  nodeOverrides : List (String × NodeStyle)
  nodeTransforms : List (String × NodeTransform)

/-- Model of `ResolvedStyle`: the record literally returned by `resolveNodeStyle`.
TypeScript's non-null assertions (`merged.fill!` etc.) are type-level
casts with no runtime effect, so those fields keep their option value;
`strokeDashArray` and `fontWeight` get genuine runtime defaults. -/
structure ResolvedStyle where
  fill : Option Fill
  fillOpacity : Option ℚ
  stroke : Option String
  strokeWidth : Option ℚ
  strokeDashArray : String
  opacity : Option ℚ
  shadow : Option ShadowStyle
  fontFamily : Option String
  fontSize : Option ℚ
  fontWeight : FontWeight
  fontColor : Option String
  textAnchor : Option TextAnchor
  iconName : Option String
  iconSize : Option ℚ
  iconColor : Option String
  className : Option String
deriving DecidableEq

/-! ## Scene graph layer: types (src/scene/types.ts) -/

inductive NodeType where
  | root
  | ring
  | sliceGroup
  | arc
  | label
  | leaderLine
  | centerContainer
  | centerContent
  | annotationRoot
  | circle
  | rect
  | image
  | text
  | icon
  | percentageLabel
deriving DecidableEq, Repr

/-- The `anno.type as NodeType` cast in the scene builder. -/
def annoNodeType : AnnoType → NodeType
  | .circle => .circle
  | .rect => .rect
  | .text => .text
  | .icon => .icon
  | .image => .image

/-- A node's transform: `x`/`y` required, `scale`/`rotate` optional. -/
structure Transform where
  x : ℚ
  y : ℚ
  scale : Option ℚ := Option.none
  rotate : Option ℚ := Option.none
deriving DecidableEq

/-- Model of `SceneNode` (src/scene/types.ts): fields in order are id, type,
parentId, children, dataId, transform, interactive, visible. -/
inductive SceneNode where
  | mk (id : String) (type : NodeType) (parentId : Option String)
       (children : List SceneNode) (dataId : Option String)
       (transform : Option Transform) (interactive : Option Bool)
       (visible : Option Bool)

def SceneNode.id : SceneNode → String
  | .mk i _ _ _ _ _ _ _ => i

def SceneNode.type : SceneNode → NodeType
  | .mk _ t _ _ _ _ _ _ => t

def SceneNode.parentId : SceneNode → Option String
  | .mk _ _ p _ _ _ _ _ => p

def SceneNode.children : SceneNode → List SceneNode
  | .mk _ _ _ c _ _ _ _ => c

def SceneNode.dataId : SceneNode → Option String
  | .mk _ _ _ _ d _ _ _ => d

def SceneNode.transform : SceneNode → Option Transform
  | .mk _ _ _ _ _ t _ _ => t

/-- Model of `SceneGraphState` (root plus flat id→node lookup map; the
`lastUpdated` timestamp is omitted). -/
structure SceneGraphState where
  root : SceneNode
  nodes : List (String × SceneNode)

/-! ## Scene graph layer: builder (src/scene/nodes.ts) -/

/-- One slice group (`<sliceId>-group`) with its arc and
percentage-label leaves, as pushed into the ring by the slices loop. -/
def sliceGroupNode (sliceId : String) : SceneNode :=
  .mk (sliceId ++ "-group") .sliceGroup (some "main-ring")
    [ .mk (sliceId ++ "-arc") .arc (some (sliceId ++ "-group")) [] (some sliceId)
        Option.none Option.none Option.none,
      .mk (sliceId ++ "-pct") .percentageLabel (some (sliceId ++ "-group")) [] (some sliceId)
        Option.none (some true) Option.none ]
    (some sliceId) Option.none (some true) Option.none

/-- A label leaf under the `labels-layer`. -/
def labelNode (lg : LabelGeometry) : SceneNode :=
  .mk lg.labelId .label (some "labels-layer") [] (some lg.sliceId)
    Option.none (some true) Option.none

/-- A leader-line leaf under the `labels-layer`. -/
def leaderLineNode (ll : LeaderLineGeometry) : SceneNode :=
  .mk ("leader-line-" ++ ll.sliceId ++ "-" ++ toString ll.labelIndex) .leaderLine
    (some "labels-layer") [] (some ll.sliceId) Option.none Option.none Option.none

/-- An annotation leaf under the `annotations-layer`. -/
def annotationNode (anno : Annotation) : SceneNode :=
  .mk anno.id (annoNodeType anno.type) (some "annotations-layer") [] Option.none
    (some { x := anno.x, y := anno.y }) (some true) Option.none

/-- Model of `buildPieSceneGraph` (src/scene/nodes.ts): fixed hierarchy —
root → ring → slice groups; root → labels layer (labels then leader
lines); root → center container when `innerRadius > 0`; root →
annotations layer when annotations exist. -/
def buildPieSceneGraph (geometry : PieGeometryState) : SceneNode :=
  let ring : SceneNode :=
    .mk "main-ring" .ring (some "chart-root")
      (geometry.slices.map (fun kv => sliceGroupNode kv.1))
      Option.none Option.none Option.none Option.none
  let labelLayer : SceneNode :=
    .mk "labels-layer" .root (some "chart-root")
      (geometry.labels.map labelNode ++ geometry.leaderLines.map leaderLineNode)
      Option.none Option.none Option.none Option.none
  let centerNodes : List SceneNode :=
    if geometry.config.innerRadius > 0 then
      [ .mk "center-container" .centerContainer (some "chart-root")
          [ .mk "center-content" .centerContent (some "center-container") []
              Option.none Option.none Option.none Option.none ]
          Option.none Option.none Option.none Option.none ]
    else []
  let annotationNodes : List SceneNode :=
    if geometry.annotations.length > 0 then
      [ .mk "annotations-layer" .annotationRoot (some "chart-root")
          (geometry.annotations.map annotationNode)
          Option.none Option.none Option.none Option.none ]
    else []
  .mk "chart-root" .root Option.none
    ([ring, labelLayer] ++ centerNodes ++ annotationNodes)
    Option.none (some { x := geometry.config.center.x, y := geometry.config.center.y })
    (some true) Option.none

/-- The transform-override merge applied to one node during the
`traverse` of `resolveSceneGraph` (override field wins; an unset
override field keeps the base value, with `{x:0,y:0,scale:1,rotate:0}`
as the base for a node with no transform). -/
def mergeTransformCore (transformOverride : Option NodeTransform)
    (tf : Option Transform) : Option Transform :=
  match transformOverride with
  | Option.none => tf
  | some ov =>
      let base := tf.getD { x := 0, y := 0, scale := some 1, rotate := some 0 }
      some { x := ov.x.getD base.x, y := ov.y.getD base.y,
             scale := ov.scale <|> base.scale, rotate := ov.rotate <|> base.rotate }

/-- Transform-override merge with the map read included. -/
def mergeTransform (nodeTransforms : List (String × NodeTransform))
    (id : String) (tf : Option Transform) : Option Transform :=
  mergeTransformCore (mapGet id nodeTransforms) tf

mutual
/-- The mutating half of `traverse`: rewrite each node's transform from
the theme's transform-override map, recursively. -/
def applyTransforms (nodeTransforms : List (String × NodeTransform)) : SceneNode → SceneNode
  | .mk id ty p cs d tf i v =>
      .mk id ty p (applyTransformsList nodeTransforms cs) d
        (mergeTransform nodeTransforms id tf) i v

def applyTransformsList (nodeTransforms : List (String × NodeTransform)) :
    List SceneNode → List SceneNode
  | [] => []
  | n :: ns => applyTransforms nodeTransforms n :: applyTransformsList nodeTransforms ns
end

mutual
/-- The collecting half of `traverse`: the nodes visited by
`nodes.set(node.id, node)` in preorder. -/
def preorderNode : SceneNode → List SceneNode
  | .mk id ty p cs d tf i v => .mk id ty p cs d tf i v :: preorderList cs

def preorderList : List SceneNode → List SceneNode
  | [] => []
  | n :: ns => preorderNode n ++ preorderList ns
end

/-- Model of `resolveSceneGraph` (src/scene/index.ts): build the tree, apply
theme transform overrides during traversal, and collect the flat
id→node map (preorder, `Map.set` semantics).  Since the JS traversal
mutates each node before registering it and children are reachable from
the map's values, the map holds the fully transformed nodes. -/
def resolveSceneGraph (geometry : PieGeometryState) (theme : ChartTheme) : SceneGraphState :=
  let root := applyTransforms theme.nodeTransforms (buildPieSceneGraph geometry)
  { root := root
    nodes := buildMap ((preorderNode root).map (fun n => (n.id, n))) }

/-! ## Styling layer: resolver (src/styles/resolver.ts) -/

def DEFAULT_PALETTE : List String :=
  ["#4E79A7", "#F28E2B", "#E15759", "#76B7B2", "#59A14F",
   "#EDC948", "#B07AA1", "#FF9DA7", "#9C755F", "#BAB0AC"]

def DEFAULT_THEME : ChartTheme :=
  { primaryColors := DEFAULT_PALETTE
    backgroundColor := "#FFFFFF"
    defaultTypography :=
      { fontFamily := "Inter, ui-sans-serif, system-ui, sans-serif"
        fontSize := 14
        fontColor := "#1e293b" }
    nodeOverrides := []
    nodeTransforms := [] }

/-- The seed style of `resolveNodeStyle` before the type-based branch. -/
def baseStyle (theme : ChartTheme) : NodeStyle :=
  { fill := some (.solid "none")
    fillOpacity := some 1
    stroke := some "none"
    strokeWidth := some 0
    opacity := some 1
    fontFamily := some theme.defaultTypography.fontFamily
    fontSize := some theme.defaultTypography.fontSize
    fontColor := some theme.defaultTypography.fontColor
    textAnchor := some .middle }

/-- The type-based default branch of `resolveNodeStyle` (the `if`/`else
if` chain mutating `base`).  For an arc, `primaryColors[sliceIndex %
primaryColors.length]` is `undefined` (`Option.none`) when the palette
is empty, exactly as the JS index expression. -/
def applyTypeDefaults (theme : ChartTheme) (sliceIndex : ℕ) (ty : NodeType)
    (b : NodeStyle) : NodeStyle :=
  match ty with
  | .arc =>
      { b with
        fill := (theme.primaryColors.get? (sliceIndex % theme.primaryColors.length)).map .solid
        stroke := some "#FFFFFF"
        strokeWidth := some 2
        className := some "hover:fill-opacity-80 cursor-pointer" }
  | .label =>
      { b with
        fill := some (.solid theme.defaultTypography.fontColor)
        fontSize := some 14
        fontWeight := some (.num 600)
        className := some "select-none cursor-pointer hover:font-black" }
  | .leaderLine =>
      { b with stroke := some "#999999", strokeWidth := some 1 }
  | .centerContainer =>
      { b with fill := some (.solid "#FFFFFF") }
  | .circle =>
      { b with fill := some (.solid "#E2E8F0"), stroke := some "#94A3B8", strokeWidth := some 1 }
  | .rect =>
      { b with fill := some (.solid "#E2E8F0"), stroke := some "#94A3B8", strokeWidth := some 1 }
  | .image =>
      { b with opacity := some 1 }
  | .percentageLabel =>
      { b with
        fontColor := some (if theme.backgroundColor = "#FFFFFF" then "#000000" else "#FFFFFF")
        fontSize := some 12
        fontWeight := some (.num 900)
        textAnchor := some .middle }
  | _ => b

/-- The spread merge `{ ...base, ...override }`: a field present in the
override wins; an absent override (or absent field) keeps the base. -/
def mergeStyle (base : NodeStyle) : Option NodeStyle → NodeStyle
  | Option.none => base
  | some o =>
      { fill := o.fill <|> base.fill
        fillOpacity := o.fillOpacity <|> base.fillOpacity
        stroke := o.stroke <|> base.stroke
        strokeWidth := o.strokeWidth <|> base.strokeWidth
        strokeDashArray := o.strokeDashArray <|> base.strokeDashArray
        opacity := o.opacity <|> base.opacity
        shadow := o.shadow <|> base.shadow
        fontFamily := o.fontFamily <|> base.fontFamily
        fontSize := o.fontSize <|> base.fontSize
        fontWeight := o.fontWeight <|> base.fontWeight
        fontColor := o.fontColor <|> base.fontColor
        textAnchor := o.textAnchor <|> base.textAnchor
        iconName := o.iconName <|> base.iconName
        iconSize := o.iconSize <|> base.iconSize
        iconColor := o.iconColor <|> base.iconColor
        className := o.className <|> base.className }

/-- Model of `resolveNodeStyle` (src/styles/resolver.ts). -/
def resolveNodeStyle (node : SceneNode) (theme : ChartTheme) (sliceIndex : ℕ) : ResolvedStyle :=
  let base := applyTypeDefaults theme sliceIndex node.type (baseStyle theme)
  let override := mapGet node.id theme.nodeOverrides
  let merged := mergeStyle base override
  { fill := merged.fill
    fillOpacity := merged.fillOpacity
    stroke := merged.stroke
    strokeWidth := merged.strokeWidth
    strokeDashArray := merged.strokeDashArray.getD ""
    opacity := merged.opacity
    shadow := merged.shadow
    fontFamily := merged.fontFamily
    fontSize := merged.fontSize
    fontWeight := merged.fontWeight.getD (.num 400)
    fontColor := merged.fontColor
    textAnchor := merged.textAnchor
    iconName := merged.iconName
    iconSize := merged.iconSize
    iconColor := merged.iconColor
    className := merged.className }

/-- First-occurrence deduplication (`Array.from(new Set(...))`). -/
def dedupFirst : List String → List String
  | [] => []
  | x :: xs => x :: (dedupFirst xs).filter (fun y => y ≠ x)

/-- Model of `resolveAllStyles` (src/styles/index.ts): one resolved style per
scene node, with the slice index taken from the node's position among
unique data-bound ids (`uniqueSliceIds.indexOf`). -/
def resolveAllStyles (scene : SceneGraphState) (theme : ChartTheme) :
    List (String × ResolvedStyle) :=
  let sliceIds := (scene.nodes.map Prod.snd).filterMap SceneNode.dataId
  let uniqueSliceIds := dedupFirst sliceIds
  buildMap (scene.nodes.map (fun kv =>
    let node := kv.2
    let sliceIndex : ℕ :=
      match node.dataId with
      | Option.none => 0
      | some d => uniqueSliceIds.indexOf d
    (node.id, resolveNodeStyle node theme sliceIndex)))

/-! ## State-threaded variants (frame-effect semantics)

To make the "no stage mutates the caller-owned maps" contract
observable, these variants thread each caller-owned map explicitly
through every operation that touches it: a read (`Map.prototype.get`
or `.values()`) returns the map it was given, and any write would have
to return an updated map.  The source performs only reads, so each
variant is the literal translation of the same loop with the map
threaded. -/

/-- Model of `Map.prototype.get` with the receiver threaded: a read returns the
map unchanged. -/
def mapGetS {α : Type} (k : String) (m : List (String × α)) : Option α × List (String × α) :=
  (mapGet k m, m)

/-- Model of `Array.from(map.values())` with the receiver threaded. -/
def mapValuesS {α : Type} (m : List (String × α)) : List α × List (String × α) :=
  (m.map Prod.snd, m)

/-- The `computePieGeometry` loop with the slice-override map threaded
through each iteration's `overrides.slices.get` read. -/
def computeSliceGeomsS (t : Trig) (config : PieGeometryConfig) :
    List ProcessedSlice → ℚ → List (String × SliceGeometryOverride) →
    List SliceGeometry × List (String × SliceGeometryOverride)
  | [], _, m => ([], m)
  | slice :: rest, currentAngle, m =>
      let r := mapGetS slice.sliceId m
      let g := sliceGeometryCore t config r.1 slice currentAngle
      let rec' := computeSliceGeomsS t config rest g.endAngle r.2
      (g :: rec'.1, rec'.2)

/-- The `computeLabelGeometry` loop with the label-override map
threaded through each iteration's `overrides.labels.get` read. -/
def computeLabelGeometryS (t : Trig) (config : PieGeometryConfig) :
    List (String × SliceGeometry) → List (String × LabelGeometryOverride) →
    (List LabelGeometry × List LeaderLineGeometry) × List (String × LabelGeometryOverride)
  | [], m => (([], []), m)
  | (sliceId, slice) :: rest, m =>
      let r := mapGetS (sliceId ++ "-label-" ++ toString 0) m
      let lbl := labelForSliceCore t config r.1 sliceId slice
      let rec' := computeLabelGeometryS t config rest r.2
      if lbl.anchorMode = .outside then
        let startPoint := slice.outerEdgePoint
        let endPoint := lbl.anchorPoint
        let pathData := "M " ++ numToStr startPoint.x ++ " " ++ numToStr startPoint.y ++
          " L " ++ numToStr endPoint.x ++ " " ++ numToStr endPoint.y
        ((lbl :: rec'.1.1,
          { sliceId := sliceId, labelIndex := lbl.labelIndex, startPoint := startPoint,
            endPoint := endPoint, pathData := pathData } :: rec'.1.2), rec'.2)
      else ((lbl :: rec'.1.1, rec'.1.2), rec'.2)

/-- Model of `resolveGeometry` with the three caller-owned override maps
threaded; returns the final contents of those maps alongside the
state. -/
def resolveGeometryS (t : Trig) (data : ProcessedPieData) (config : PieGeometryConfig)
    (overrides : GeometryOverrides) : PieGeometryState × GeometryOverrides :=
  let rg := computeSliceGeomsS t config data.slices config.startAngle overrides.slices
  let rl := computeLabelGeometryS t config (buildMap (rg.1.map (fun g => (g.sliceId, g)))) overrides.labels
  let ra := mapValuesS overrides.annotations
  ({ config := config
     slices := buildMap (rg.1.map (fun g => (g.sliceId, g)))
     labels := rl.1.1
     leaderLines := rl.1.2
     annotations := ra.1
     overrides := { slices := rg.2, labels := rl.2, annotations := ra.2 } },
   { slices := rg.2, labels := rl.2, annotations := ra.2 })

mutual
/-- Model of `traverse` of `resolveSceneGraph` with the theme's transform map
threaded through each `theme.nodeTransforms.get` read. -/
def applyTransformsS (m : List (String × NodeTransform)) :
    SceneNode → SceneNode × List (String × NodeTransform)
  | .mk id ty p cs d tf i v =>
      let r := mapGetS id m
      let rc := applyTransformsListS r.2 cs
      (.mk id ty p rc.1 d (mergeTransformCore r.1 tf) i v, rc.2)

def applyTransformsListS (m : List (String × NodeTransform)) :
    List SceneNode → List SceneNode × List (String × NodeTransform)
  | [] => ([], m)
  | n :: ns =>
      let r := applyTransformsS m n
      let rs := applyTransformsListS r.2 ns
      (r.1 :: rs.1, rs.2)
end

/-- Model of `resolveSceneGraph` with the theme's transform-override map
threaded; returns the final contents of that map alongside the scene
state. -/
def resolveSceneGraphS (geometry : PieGeometryState) (theme : ChartTheme) :
    SceneGraphState × List (String × NodeTransform) :=
  let r := applyTransformsS theme.nodeTransforms (buildPieSceneGraph geometry)
  ({ root := r.1
     nodes := buildMap ((preorderNode r.1).map (fun n => (n.id, n))) }, r.2)

/-! ## General lemmas -/

theorem foldl_add_eq (l : List ℚ) : ∀ a : ℚ, l.foldl (· + ·) a = a + l.sum := by
  induction l with
  | nil => simp
  | cons x xs ih => intro a; simp only [List.foldl_cons, ih, List.sum_cons]; ring

theorem listSum_eq_sum (l : List ℚ) : listSum l = l.sum := by
  simp [listSum, foldl_add_eq]

/-! ## Claim C5: degenerate spans give the empty path, otherwise a move command -/

/-- Claim C5. For every center, radii, start/end angle and pad angle,
`createArcPath` returns the empty string exactly when the padded span is
degenerate, i.e. `(endAngle − startAngle)/2 − padAngle/2 ≤ 0`; otherwise
the returned path data begins with a move (`"M "`) command.  The
function is total, so degenerate spans never raise an error. -/
theorem C5_arc_path_empty_iff_degenerate (t : Trig) (center : Point)
    (innerRadius outerRadius startAngle endAngle padAngle : ℚ) :
    (createArcPath t center innerRadius outerRadius startAngle endAngle padAngle = "" ↔
      (endAngle - startAngle) / 2 - padAngle / 2 ≤ 0)
    ∧ (¬ (endAngle - startAngle) / 2 - padAngle / 2 ≤ 0 →
        ∃ rest, createArcPath t center innerRadius outerRadius startAngle endAngle padAngle =
          "M " ++ rest) := by
  by_cases h : endAngle - padAngle / 2 ≤ startAngle + padAngle / 2
  · have hc : (endAngle - startAngle) / 2 - padAngle / 2 ≤ 0 := by linarith
    refine ⟨⟨fun _ => hc, fun _ => ?_⟩, fun hgt => absurd hc hgt⟩
    simp only [createArcPath, if_pos h]
  · have hM : ∃ rest,
        createArcPath t center innerRadius outerRadius startAngle endAngle padAngle =
          "M " ++ rest := by
      simp only [createArcPath, if_neg h]
      by_cases hin : innerRadius ≤ 0
      · exact ⟨_, by rw [if_pos hin]⟩
      · exact ⟨_, by rw [if_neg hin]⟩
    obtain ⟨rest, hrest⟩ := hM
    have hgt : ¬ (endAngle - startAngle) / 2 - padAngle / 2 ≤ 0 := by
      push_neg at h ⊢; linarith
    refine ⟨⟨fun hpath => ?_, fun hle => absurd hle hgt⟩, fun _ => ⟨rest, hrest⟩⟩
    rw [hrest] at hpath
    have hdata := congrArg String.data hpath
    rw [String.data_append] at hdata
    exact absurd hdata (by simp)

/-! ## Data-processor lemmas -/

theorem mkSlices_length (rs : List RawSlice) : ∀ (ps : List ℚ) (i : ℕ),
    (mkSlices rs ps i).length = rs.length := by
  induction rs with
  | nil => intro ps i; rfl
  | cons s ss ih => intro ps i; simp [mkSlices, ih]

theorem mkSlices_map_percentage (rs : List RawSlice) : ∀ (ps : List ℚ) (i : ℕ),
    ps.length = rs.length →
    (mkSlices rs ps i).map ProcessedSlice.percentage = ps := by
  induction rs with
  | nil =>
      intro ps i h
      rw [List.length_nil, List.length_eq_zero] at h
      simp [mkSlices, h]
  | cons s ss ih =>
      intro ps i h
      cases ps with
      | nil => simp at h
      | cons p ps' =>
          simp only [List.length_cons, Nat.succ_inj] at h
          simp [mkSlices, ih ps' (i + 1) h]

theorem mkSlices_map_label (rs : List RawSlice) : ∀ (ps : List ℚ) (i : ℕ),
    (mkSlices rs ps i).map ProcessedSlice.label = rs.map RawSlice.label := by
  induction rs with
  | nil => intro ps i; rfl
  | cons s ss ih => intro ps i; simp [mkSlices, ih]

theorem mkSlices_map_rawValue (rs : List RawSlice) : ∀ (ps : List ℚ) (i : ℕ),
    (mkSlices rs ps i).map ProcessedSlice.rawValue = rs.map RawSlice.rawValue := by
  induction rs with
  | nil => intro ps i; rfl
  | cons s ss ih => intro ps i; simp [mkSlices, ih]

theorem computePercentages_length (vs : List ℚ) :
    (computePercentages vs).length = vs.length := by
  simp only [computePercentages]
  split <;> simp

theorem sum_map_mul_const (l : List ℚ) (c : ℚ) :
    (l.map (fun v => v * c)).sum = l.sum * c := by
  induction l with
  | nil => simp
  | cons x xs ih => simp [ih]; ring

theorem computePercentages_sum (vs : List ℚ) (h : vs ≠ []) :
    listSum (computePercentages vs) = 100 := by
  have hlen : vs.length ≠ 0 := fun hz => h (List.length_eq_zero.mp hz)
  have hlenQ : (vs.length : ℚ) ≠ 0 := Nat.cast_ne_zero.mpr hlen
  rw [listSum_eq_sum]
  simp only [computePercentages, listSum_eq_sum]
  split
  · next h0 =>
      rw [if_pos (List.length_pos.mpr h)]
      rw [List.map_const', List.sum_replicate, nsmul_eq_mul]
      field_simp
  · next h0 =>
      have : vs.map (fun v => v / vs.sum * 100) = vs.map (fun v => v * (100 / vs.sum)) := by
        apply List.map_congr_left
        intro v _
        ring
      rw [this, sum_map_mul_const]
      field_simp

theorem computePercentages_total_zero (vs : List ℚ) (h0 : listSum vs = 0) (h : vs ≠ []) :
    computePercentages vs = vs.map (fun _ => 100 / (vs.length : ℚ)) := by
  simp only [computePercentages]
  rw [if_pos h0, if_pos (List.length_pos.mpr h)]

/-! ## Claim C1: percentages sum to 100; zero total gives equal shares -/

/-- Claim C1. For every input whose processed slice list is non-empty, the
`percentage` fields returned by `processPieData` sum to exactly 100 (in
the exact-rational model; hence within any floating tolerance such as
1e-9); and when the aggregated total is 0, every one of the `n` slices
receives the equal share `100/n`. -/
theorem C1_percentages_sum_and_equal_share (chartData : ChartData) (config : ProcessorConfig)
    (h : (processPieData chartData config).slices ≠ []) :
    listSum ((processPieData chartData config).slices.map ProcessedSlice.percentage) = 100
    ∧ ((processPieData chartData config).total = 0 →
        ∀ s ∈ (processPieData chartData config).slices,
          s.percentage = 100 / ((processPieData chartData config).slices.length : ℚ)) := by
  simp only [processPieData] at h ⊢
  set raw := rawSlicesOf chartData config with hraw
  set vs := raw.map RawSlice.rawValue with hvs
  have hrawne : raw ≠ [] := by
    intro hnil
    rw [hnil] at h
    exact h rfl
  have hvsne : vs ≠ [] := by
    rw [hvs]
    simpa using hrawne
  have hlen : (computePercentages vs).length = raw.length := by
    rw [computePercentages_length, hvs, List.length_map]
  have hmap : (mkSlices raw (computePercentages vs) 0).map ProcessedSlice.percentage =
      computePercentages vs := mkSlices_map_percentage raw _ 0 hlen
  constructor
  · rw [hmap]
    exact computePercentages_sum vs hvsne
  · intro h0 s hs
    have hzero := computePercentages_total_zero vs h0 hvsne
    have hpmem : s.percentage ∈ (mkSlices raw (computePercentages vs) 0).map
        ProcessedSlice.percentage := List.mem_map_of_mem _ hs
    rw [hmap, hzero] at hpmem
    obtain ⟨v, _, hv⟩ := List.mem_map.mp hpmem
    rw [← hv]
    rw [mkSlices_length, hvs, List.length_map]

/-- Default processor config (`config: ProcessorConfig = {}`). -/
def defaultProcessorConfig : ProcessorConfig := {}

/-- A one-row dataset used to witness C1. -/
def witnessData1 : ChartData :=
  { dimensions := [⟨"c"⟩]
    measures := [⟨"v", some "sum"⟩]
    data := [[("c", .str "Alpha"), ("v", .num 1)]]
    mappingX := some "c"
    mappingValue := some "v" }

theorem C1_witness :
    (processPieData witnessData1 defaultProcessorConfig).slices ≠ [] ∧
    (listSum ((processPieData witnessData1 defaultProcessorConfig).slices.map
        ProcessedSlice.percentage) = 100
      ∧ ((processPieData witnessData1 defaultProcessorConfig).total = 0 →
          ∀ s ∈ (processPieData witnessData1 defaultProcessorConfig).slices,
            s.percentage =
              100 / ((processPieData witnessData1 defaultProcessorConfig).slices.length : ℚ))) := by
  have hne : (processPieData witnessData1 defaultProcessorConfig).slices ≠ [] := by
    simp [processPieData, rawSlicesOf, groupRows, groupRowsAux, addToGroups, rowCategory,
      rowNumeric, rowGet, resolveCategoryField, resolveValueField, resolveAggregation,
      aggregate, listSum, sortDesc, insertDesc, computePercentages, mkSlices,
      witnessData1, defaultProcessorConfig]
  exact ⟨hne, C1_percentages_sum_and_equal_share witnessData1 defaultProcessorConfig hne⟩

/-! ## Geometry-loop lemmas -/

theorem sliceGeometryAt_startAngle (t : Trig) (config : PieGeometryConfig)
    (ov : GeometryOverrides) (s : ProcessedSlice) (cur : ℚ) :
    (sliceGeometryAt t config ov s cur).startAngle = cur := rfl

theorem sliceGeometryAt_endAngle (t : Trig) (config : PieGeometryConfig)
    (ov : GeometryOverrides) (s : ProcessedSlice) (cur : ℚ) :
    (sliceGeometryAt t config ov s cur).endAngle =
      cur + s.percentage / 100 * (config.endAngle - config.startAngle) := rfl

theorem sliceGeometryAt_sliceId (t : Trig) (config : PieGeometryConfig)
    (ov : GeometryOverrides) (s : ProcessedSlice) (cur : ℚ) :
    (sliceGeometryAt t config ov s cur).sliceId = s.sliceId := rfl

theorem computeSliceGeoms_length (t : Trig) (config : PieGeometryConfig)
    (ov : GeometryOverrides) (ss : List ProcessedSlice) : ∀ cur : ℚ,
    (computeSliceGeoms t config ov ss cur).length = ss.length := by
  induction ss with
  | nil => intro cur; rfl
  | cons s rest ih => intro cur; simp [computeSliceGeoms, ih]

theorem computeSliceGeoms_spans (t : Trig) (config : PieGeometryConfig)
    (ov : GeometryOverrides) (ss : List ProcessedSlice) : ∀ cur : ℚ,
    (computeSliceGeoms t config ov ss cur).map (fun g => g.endAngle - g.startAngle) =
      ss.map (fun s => s.percentage / 100 * (config.endAngle - config.startAngle)) := by
  induction ss with
  | nil => intro cur; rfl
  | cons s rest ih =>
      intro cur
      simp only [computeSliceGeoms, List.map_cons, ih, List.cons.injEq, and_true]
      rw [sliceGeometryAt_endAngle, sliceGeometryAt_startAngle]
      ring

theorem computeSliceGeoms_chain (t : Trig) (config : PieGeometryConfig)
    (ov : GeometryOverrides) (ss : List ProcessedSlice) : ∀ cur : ℚ,
    List.Chain' (fun a b => b.startAngle = a.endAngle)
      (computeSliceGeoms t config ov ss cur) := by
  induction ss with
  | nil => intro cur; simp [computeSliceGeoms]
  | cons s rest ih =>
      intro cur
      simp only [computeSliceGeoms]
      rw [List.chain'_cons']
      refine ⟨?_, ih _⟩
      intro y hy
      cases rest with
      | nil => simp [computeSliceGeoms] at hy
      | cons s' rest' =>
          simp only [computeSliceGeoms, List.head?_cons, Option.mem_def, Option.some.injEq] at hy
          rw [← hy, sliceGeometryAt_startAngle]

/-! ## Claim C2: spans proportional, contiguous, summing to the range -/

/-- Claim C2. For every processed pie data (with the `ProcessedPieData`
invariant that percentages sum to 100) and every geometry config,
`computePieGeometry`'s slice loop starts at `config.startAngle`, gives
each ordered slice an angular span equal to
`(percentage/100)·(endAngle − startAngle)`, makes each slice's start
angle equal to the previous slice's end angle, and makes the spans sum
exactly to `endAngle − startAngle`. -/
theorem C2_angular_spans (t : Trig) (d : ProcessedPieData) (config : PieGeometryConfig)
    (ov : GeometryOverrides)
    (hsum : listSum (d.slices.map ProcessedSlice.percentage) = 100) :
    (computePieGeometry t d config ov).slices =
        buildMap ((computeSliceGeoms t config ov d.slices config.startAngle).map
          (fun g => (g.sliceId, g)))
    ∧ (computeSliceGeoms t config ov d.slices config.startAngle).length = d.slices.length
    ∧ (∀ g ∈ (computeSliceGeoms t config ov d.slices config.startAngle).head?,
        g.startAngle = config.startAngle)
    ∧ (computeSliceGeoms t config ov d.slices config.startAngle).map
          (fun g => g.endAngle - g.startAngle) =
        d.slices.map (fun s => s.percentage / 100 * (config.endAngle - config.startAngle))
    ∧ List.Chain' (fun a b => b.startAngle = a.endAngle)
        (computeSliceGeoms t config ov d.slices config.startAngle)
    ∧ listSum ((computeSliceGeoms t config ov d.slices config.startAngle).map
        (fun g => g.endAngle - g.startAngle)) = config.endAngle - config.startAngle := by
  refine ⟨rfl, computeSliceGeoms_length t config ov d.slices config.startAngle, ?_,
    computeSliceGeoms_spans t config ov d.slices config.startAngle,
    computeSliceGeoms_chain t config ov d.slices config.startAngle, ?_⟩
  · intro g hg
    cases hss : d.slices with
    | nil => rw [hss] at hg; simp [computeSliceGeoms] at hg
    | cons s rest =>
        rw [hss] at hg
        simp only [computeSliceGeoms, List.head?_cons, Option.mem_def, Option.some.injEq] at hg
        rw [← hg, sliceGeometryAt_startAngle]
  · rw [computeSliceGeoms_spans t config ov d.slices config.startAngle]
    rw [listSum_eq_sum] at hsum ⊢
    have hmm : d.slices.map (fun s => s.percentage / 100 * (config.endAngle - config.startAngle)) =
        (d.slices.map ProcessedSlice.percentage).map
          (fun p => p * ((config.endAngle - config.startAngle) / 100)) := by
      rw [List.map_map]
      apply List.map_congr_left
      intro s _
      simp only [Function.comp_apply]
      ring
    rw [hmm, sum_map_mul_const, hsum]
    ring

/-- Model of `createEmptyOverrides` (src/geometry/types.ts). -/
def createEmptyOverrides : GeometryOverrides :=
  { slices := [], labels := [], annotations := [] }

/-- A concrete stand-in for `Math` used by closed witnesses. -/
def trigQ : Trig := { cos := fun _ => 1, sin := fun _ => 0, pi := 3 }

/-- A one-slice processed dataset used to witness C2. -/
def witnessPieData : ProcessedPieData :=
  { slices := [{ sliceId := "slice-x", label := "X", rawValue := 1, percentage := 100,
                 originalRowIndices := [0] }]
    total := 1
    categoryField := "c"
    valueField := "v" }

/-- A concrete geometry config used by closed witnesses. -/
def witnessConfig : PieGeometryConfig :=
  { center := { x := 0, y := 0 }, outerRadius := 150, innerRadius := 0,
    startAngle := 0, endAngle := 2, padAngle := 0, cornerRadius := 0,
    labelAnchorMode := .outside, labelRadiusOffset := 30, sortOrder := .none }

theorem C2_witness :
    listSum (witnessPieData.slices.map ProcessedSlice.percentage) = 100 ∧
    ((computePieGeometry trigQ witnessPieData witnessConfig createEmptyOverrides).slices =
        buildMap ((computeSliceGeoms trigQ witnessConfig createEmptyOverrides
            witnessPieData.slices witnessConfig.startAngle).map (fun g => (g.sliceId, g)))
      ∧ (computeSliceGeoms trigQ witnessConfig createEmptyOverrides witnessPieData.slices
          witnessConfig.startAngle).length = witnessPieData.slices.length
      ∧ (∀ g ∈ (computeSliceGeoms trigQ witnessConfig createEmptyOverrides witnessPieData.slices
          witnessConfig.startAngle).head?, g.startAngle = witnessConfig.startAngle)
      ∧ (computeSliceGeoms trigQ witnessConfig createEmptyOverrides witnessPieData.slices
            witnessConfig.startAngle).map (fun g => g.endAngle - g.startAngle) =
          witnessPieData.slices.map (fun s =>
            s.percentage / 100 * (witnessConfig.endAngle - witnessConfig.startAngle))
      ∧ List.Chain' (fun a b => b.startAngle = a.endAngle)
          (computeSliceGeoms trigQ witnessConfig createEmptyOverrides witnessPieData.slices
            witnessConfig.startAngle)
      ∧ listSum ((computeSliceGeoms trigQ witnessConfig createEmptyOverrides
            witnessPieData.slices witnessConfig.startAngle).map
          (fun g => g.endAngle - g.startAngle)) =
          witnessConfig.endAngle - witnessConfig.startAngle) := by
  have hsum : listSum (witnessPieData.slices.map ProcessedSlice.percentage) = 100 := by
    simp [witnessPieData, listSum]
  exact ⟨hsum, C2_angular_spans trigQ witnessPieData witnessConfig createEmptyOverrides hsum⟩

/-! ## Claim C8: one label per slice; leader lines exactly for `outside` -/

theorem labelForSlice_anchorMode (t : Trig) (config : PieGeometryConfig)
    (ov : GeometryOverrides) (sliceId : String) (slice : SliceGeometry) :
    (labelForSlice t config ov sliceId slice).anchorMode =
      ((mapGet (sliceId ++ "-label-" ++ toString 0) ov.labels).bind
        LabelGeometryOverride.anchorMode).getD config.labelAnchorMode := rfl

/-- Claim C8. For every slice-map entry, `computeLabelGeometry` produces
exactly one label (in order, keyed by the slice id), and it produces a
leader line for a slice exactly when the effective anchor mode — the
label override's mode if present, else the config default — is
`outside`; each produced leader line is the two-point path from the
slice's outer edge point to the label's final anchor point. -/
theorem C8_one_label_leader_iff_outside (t : Trig) (config : PieGeometryConfig)
    (ov : GeometryOverrides) (entries : List (String × SliceGeometry)) :
    ((computeLabelGeometry t config ov entries).1).map LabelGeometry.sliceId =
        entries.map Prod.fst
    ∧ (computeLabelGeometry t config ov entries).2 =
      (entries.filter (fun e =>
          decide ((((mapGet (e.1 ++ "-label-" ++ toString 0) ov.labels).bind
            LabelGeometryOverride.anchorMode).getD config.labelAnchorMode) =
              LabelAnchorMode.outside))).map
        (fun e =>
          { sliceId := e.1
            labelIndex := 0
            startPoint := e.2.outerEdgePoint
            endPoint := (labelForSlice t config ov e.1 e.2).anchorPoint
            pathData := "M " ++ numToStr e.2.outerEdgePoint.x ++ " " ++
              numToStr e.2.outerEdgePoint.y ++ " L " ++
              numToStr (labelForSlice t config ov e.1 e.2).anchorPoint.x ++ " " ++
              numToStr (labelForSlice t config ov e.1 e.2).anchorPoint.y }) := by
  induction entries with
  | nil => exact ⟨rfl, rfl⟩
  | cons e rest ih =>
      obtain ⟨k, sl⟩ := e
      have hids : (labelForSlice t config ov k sl).sliceId = k := rfl
      have hidx : (labelForSlice t config ov k sl).labelIndex = 0 := rfl
      by_cases hmode : (labelForSlice t config ov k sl).anchorMode = LabelAnchorMode.outside
      · have hdec : decide ((((mapGet (k ++ "-label-" ++ toString 0) ov.labels).bind
            LabelGeometryOverride.anchorMode).getD config.labelAnchorMode) =
              LabelAnchorMode.outside) = true := by
          rw [← labelForSlice_anchorMode t config ov k sl]
          exact decide_eq_true hmode
        constructor
        · simp only [computeLabelGeometry]
          rw [if_pos hmode]
          simp only [List.map_cons, hids, ih.1]
        · simp only [computeLabelGeometry]
          rw [if_pos hmode]
          rw [List.filter_cons, hdec]
          simp only [if_true, List.map_cons, hidx, ih.2]
      · have hdec : decide ((((mapGet (k ++ "-label-" ++ toString 0) ov.labels).bind
            LabelGeometryOverride.anchorMode).getD config.labelAnchorMode) =
              LabelAnchorMode.outside) = false := by
          rw [← labelForSlice_anchorMode t config ov k sl]
          exact decide_eq_false hmode
        constructor
        · simp only [computeLabelGeometry]
          rw [if_neg hmode]
          simp only [List.map_cons, hids, ih.1]
        · simp only [computeLabelGeometry]
          rw [if_neg hmode]
          rw [List.filter_cons, hdec]
          simp only [Bool.false_eq_true, if_false, ih.2]

/-! ## Claim C7: theme overrides win; arc fill from the palette -/

/-- Claim C7. In `resolveNodeStyle`, every field present in the theme's
per-node style override for the node's id appears unchanged in the
resolved style, winning over the node's type-based default; and an ARC
node with no override for its id resolves its fill to
`theme.primaryColors[sliceIndex % paletteLength]`. -/
theorem C7_override_wins_and_arc_palette (node : SceneNode) (theme : ChartTheme)
    (sliceIndex : ℕ) :
    (∀ o, mapGet node.id theme.nodeOverrides = some o →
      (∀ v, o.fill = some v → (resolveNodeStyle node theme sliceIndex).fill = some v)
      ∧ (∀ v, o.fillOpacity = some v → (resolveNodeStyle node theme sliceIndex).fillOpacity = some v)
      ∧ (∀ v, o.stroke = some v → (resolveNodeStyle node theme sliceIndex).stroke = some v)
      ∧ (∀ v, o.strokeWidth = some v → (resolveNodeStyle node theme sliceIndex).strokeWidth = some v)
      ∧ (∀ v, o.strokeDashArray = some v →
          (resolveNodeStyle node theme sliceIndex).strokeDashArray = v)
      ∧ (∀ v, o.opacity = some v → (resolveNodeStyle node theme sliceIndex).opacity = some v)
      ∧ (∀ v, o.shadow = some v → (resolveNodeStyle node theme sliceIndex).shadow = some v)
      ∧ (∀ v, o.fontFamily = some v → (resolveNodeStyle node theme sliceIndex).fontFamily = some v)
      ∧ (∀ v, o.fontSize = some v → (resolveNodeStyle node theme sliceIndex).fontSize = some v)
      ∧ (∀ v, o.fontWeight = some v → (resolveNodeStyle node theme sliceIndex).fontWeight = v)
      ∧ (∀ v, o.fontColor = some v → (resolveNodeStyle node theme sliceIndex).fontColor = some v)
      ∧ (∀ v, o.textAnchor = some v → (resolveNodeStyle node theme sliceIndex).textAnchor = some v)
      ∧ (∀ v, o.iconName = some v → (resolveNodeStyle node theme sliceIndex).iconName = some v)
      ∧ (∀ v, o.iconSize = some v → (resolveNodeStyle node theme sliceIndex).iconSize = some v)
      ∧ (∀ v, o.iconColor = some v → (resolveNodeStyle node theme sliceIndex).iconColor = some v)
      ∧ (∀ v, o.className = some v → (resolveNodeStyle node theme sliceIndex).className = some v))
    ∧ (node.type = NodeType.arc → mapGet node.id theme.nodeOverrides = Option.none →
        ∀ hlt : sliceIndex % theme.primaryColors.length < theme.primaryColors.length,
          (resolveNodeStyle node theme sliceIndex).fill =
            some (Fill.solid (theme.primaryColors.get
              ⟨sliceIndex % theme.primaryColors.length, hlt⟩))) := by
  constructor
  · intro o ho
    refine ⟨?_, ?_, ?_, ?_, ?_, ?_, ?_, ?_, ?_, ?_, ?_, ?_, ?_, ?_, ?_, ?_⟩ <;>
      intro v hv <;> simp [resolveNodeStyle, mergeStyle, ho, hv]
  · intro harc hnone hlt
    simp only [resolveNodeStyle, mergeStyle, hnone, harc, applyTypeDefaults]
    rw [List.get?_eq_get hlt]
    rfl

/-! ## Claim C9: pipeline stages do not mutate caller-owned maps -/

theorem computeSliceGeomsS_eq (t : Trig) (config : PieGeometryConfig)
    (ov : GeometryOverrides) (ss : List ProcessedSlice) : ∀ cur : ℚ,
    computeSliceGeomsS t config ss cur ov.slices =
      (computeSliceGeoms t config ov ss cur, ov.slices) := by
  induction ss with
  | nil => intro cur; rfl
  | cons s rest ih =>
      intro cur
      simp only [computeSliceGeomsS, computeSliceGeoms, mapGetS, sliceGeometryAt, ih]

theorem computeLabelGeometryS_eq (t : Trig) (config : PieGeometryConfig)
    (ov : GeometryOverrides) (entries : List (String × SliceGeometry)) :
    computeLabelGeometryS t config entries ov.labels =
      (computeLabelGeometry t config ov entries, ov.labels) := by
  induction entries with
  | nil => rfl
  | cons e rest ih =>
      obtain ⟨k, sl⟩ := e
      by_cases hmode : (labelForSlice t config ov k sl).anchorMode = LabelAnchorMode.outside
      · simp only [computeLabelGeometryS, computeLabelGeometry, mapGetS, ih]
        rw [if_pos (by exact hmode), if_pos hmode]
        simp only [labelForSlice]
      · simp only [computeLabelGeometryS, computeLabelGeometry, mapGetS, ih]
        rw [if_neg (by exact hmode), if_neg hmode]
        simp only [labelForSlice]

mutual
theorem applyTransformsS_eq (m : List (String × NodeTransform)) :
    ∀ n : SceneNode, applyTransformsS m n = (applyTransforms m n, m)
  | .mk id ty p cs d tf i v => by
      simp only [applyTransformsS, applyTransforms, mapGetS, mergeTransform]
      rw [applyTransformsListS_eq m cs]

theorem applyTransformsListS_eq (m : List (String × NodeTransform)) :
    ∀ l : List SceneNode, applyTransformsListS m l = (applyTransformsList m l, m)
  | [] => rfl
  | n :: ns => by
      simp only [applyTransformsListS, applyTransformsList]
      rw [applyTransformsS_eq m n, applyTransformsListS_eq m ns]
end

/-- Claim C9. No pipeline stage mutates the caller-owned override maps
(slices, labels, annotations) or the theme's transform-override map:
in the state-threaded semantics — where every map operation the source
performs is made to return the resulting map — `resolveGeometry` and
`resolveSceneGraph` return their caller-owned maps with exactly the
keys and values they were given (and compute the same output as the
read-only semantics). -/
theorem C9_no_mutation_of_caller_maps (t : Trig) (data : ProcessedPieData)
    (config : PieGeometryConfig) (ov : GeometryOverrides)
    (geometry : PieGeometryState) (theme : ChartTheme) :
    (resolveGeometryS t data config ov).2 = ov
    ∧ (resolveGeometryS t data config ov).1 = resolveGeometry t data config ov
    ∧ (resolveSceneGraphS geometry theme).2 = theme.nodeTransforms
    ∧ (resolveSceneGraphS geometry theme).1 = resolveSceneGraph geometry theme := by
  obtain ⟨os, ol, oa⟩ := ov
  have h1 := computeSliceGeomsS_eq t config ⟨os, ol, oa⟩ data.slices config.startAngle
  have h2 := computeLabelGeometryS_eq t config ⟨os, ol, oa⟩
    (buildMap ((computeSliceGeoms t config ⟨os, ol, oa⟩ data.slices config.startAngle).map
      (fun g => (g.sliceId, g))))
  have h3 := applyTransformsS_eq theme.nodeTransforms (buildPieSceneGraph geometry)
  refine ⟨?_, ?_, ?_, ?_⟩
  · simp only [resolveGeometryS, h1, h2, mapValuesS]
  · simp only [resolveGeometryS, resolveGeometry, computePieGeometry, h1, h2, mapValuesS]
  · simp only [resolveSceneGraphS, h3]
  · simp only [resolveSceneGraphS, resolveSceneGraph, h3]

/-! ## Sorting lemmas (stable descending sort) -/

theorem mem_insertDesc (x z : RawSlice) : ∀ l : List RawSlice,
    z ∈ insertDesc x l ↔ z = x ∨ z ∈ l := by
  intro l
  induction l with
  | nil => simp [insertDesc]
  | cons y ys ih =>
      simp only [insertDesc]
      split
      · simp [List.mem_cons]
      · simp only [List.mem_cons, ih]
        tauto

theorem insertDesc_sorted (x : RawSlice) : ∀ l : List RawSlice,
    List.Pairwise (fun a b => a.rawValue ≥ b.rawValue) l →
    List.Pairwise (fun a b => a.rawValue ≥ b.rawValue) (insertDesc x l) := by
  intro l
  induction l with
  | nil => intro _; simp [insertDesc]
  | cons y ys ih =>
      intro hp
      rw [List.pairwise_cons] at hp
      simp only [insertDesc]
      split
      · next hxy =>
          rw [List.pairwise_cons]
          refine ⟨?_, List.pairwise_cons.mpr hp⟩
          intro z hz
          rcases List.mem_cons.mp hz with hz | hz
          · rw [hz]; exact hxy
          · exact le_trans (hp.1 z hz) hxy
      · next hxy =>
          push_neg at hxy
          rw [List.pairwise_cons]
          refine ⟨?_, ih hp.2⟩
          intro z hz
          rcases (mem_insertDesc x z ys).mp hz with hz | hz
          · rw [hz]; exact le_of_lt hxy
          · exact hp.1 z hz

theorem sortDesc_sorted : ∀ l : List RawSlice,
    List.Pairwise (fun a b => a.rawValue ≥ b.rawValue) (sortDesc l) := by
  intro l
  induction l with
  | nil => simp [sortDesc]
  | cons x xs ih => exact insertDesc_sorted x (sortDesc xs) ih

theorem insertDesc_perm (x : RawSlice) : ∀ l : List RawSlice,
    (insertDesc x l).Perm (x :: l) := by
  intro l
  induction l with
  | nil => simp [insertDesc]
  | cons y ys ih =>
      simp only [insertDesc]
      split
      · exact List.Perm.refl _
      · exact ((ih.cons y).trans (List.Perm.swap x y ys))

theorem sortDesc_perm : ∀ l : List RawSlice, (sortDesc l).Perm l := by
  intro l
  induction l with
  | nil => simp [sortDesc]
  | cons x xs ih =>
      exact (insertDesc_perm x (sortDesc xs)).trans (ih.cons x)

theorem insertDesc_filter (x : RawSlice) (v : ℚ) : ∀ l : List RawSlice,
    (insertDesc x l).filter (fun s => decide (s.rawValue = v)) =
      (x :: l).filter (fun s => decide (s.rawValue = v)) := by
  intro l
  induction l with
  | nil => rfl
  | cons y ys ih =>
      simp only [insertDesc]
      split
      · rfl
      · next hxy =>
          push_neg at hxy
          by_cases hxv : x.rawValue = v
          · have hyv : ¬ y.rawValue = v := by
              intro hy
              rw [hxv] at hxy
              rw [hy] at hxy
              exact lt_irrefl v hxy
            simp [List.filter_cons, hxv, hyv, ih]
          · simp [List.filter_cons, hxv, ih]

theorem sortDesc_filter (v : ℚ) : ∀ l : List RawSlice,
    (sortDesc l).filter (fun s => decide (s.rawValue = v)) =
      l.filter (fun s => decide (s.rawValue = v)) := by
  intro l
  induction l with
  | nil => rfl
  | cons x xs ih =>
      simp only [sortDesc]
      rw [insertDesc_filter, List.filter_cons, List.filter_cons, ih]

/-! ## Claim C6: descending stable order; the A/B/C scenario -/

/-- The `{A:30, B:30, C:40}` dataset of the C6 scenario. -/
def dataABC : ChartData :=
  { dimensions := [⟨"category"⟩]
    measures := [⟨"value", some "sum"⟩]
    data := [[("category", .str "A"), ("value", .num 30)],
             [("category", .str "B"), ("value", .num 30)],
             [("category", .str "C"), ("value", .num 40)]]
    mappingX := some "category"
    mappingValue := some "value" }

/-- The C6 scenario's config (`startAngle = -π/2`, `endAngle = 3π/2`,
`padAngle = 0`), with `π` abstract. -/
def cfgABC (pi : ℚ) : PieGeometryConfig :=
  { center := { x := 0, y := 0 }, outerRadius := 150, innerRadius := 0,
    startAngle := -(pi / 2), endAngle := pi * (3 / 2), padAngle := 0, cornerRadius := 0,
    labelAnchorMode := .outside, labelRadiusOffset := 30, sortOrder := .none }

theorem rawSlicesOf_dataABC :
    rawSlicesOf dataABC defaultProcessorConfig =
      [⟨"C", 40, [2]⟩, ⟨"A", 30, [0]⟩, ⟨"B", 30, [1]⟩] := by
  have hgroups : groupRows "category" "value" dataABC.data =
      [⟨"A", [30], [0]⟩, ⟨"B", [30], [1]⟩, ⟨"C", [40], [2]⟩] := by
    simp [groupRows, groupRowsAux, addToGroups, rowCategory, rowNumeric, rowGet, dataABC]
  have hfields : resolveCategoryField dataABC defaultProcessorConfig = "category" ∧
      resolveValueField dataABC defaultProcessorConfig = "value" ∧
      resolveAggregation dataABC defaultProcessorConfig "value" = "sum" := by
    refine ⟨rfl, rfl, ?_⟩
    simp [resolveAggregation, dataABC, defaultProcessorConfig]
  simp only [rawSlicesOf, hfields.1, hfields.2.1, hfields.2.2, hgroups]
  have hagg : ∀ q : ℚ, aggregate [q] "sum" = q := by
    intro q
    simp [aggregate, listSum]
  simp only [List.map_cons, List.map_nil, hagg]
  norm_num [sortDesc, insertDesc]

theorem processPieData_dataABC_slices :
    (processPieData dataABC defaultProcessorConfig).slices.map
        (fun s => (s.label, s.percentage)) = [("C", 40), ("A", 30), ("B", 30)]
    ∧ (processPieData dataABC defaultProcessorConfig).slices.map
        ProcessedSlice.percentage = [40, 30, 30] := by
  have hpct : computePercentages [40, 30, 30] = [40, 30, 30] := by
    norm_num [computePercentages, listSum]
  constructor <;>
    simp [processPieData, rawSlicesOf_dataABC, hpct, mkSlices]

/-- Claim C6. `processPieData` orders the output slices by aggregated
value descending, with ties keeping first-encounter order (the sort is
stable: for every value, the equal-valued entries come out in exactly
their input order); in particular, for the dataset `{A:30, B:30, C:40}`
with the scenario config (`startAngle = -π/2`, `endAngle = 3π/2`,
`padAngle = 0`, `π` abstract) the slices come out ordered
`[C (40%), A (30%), B (30%)]` with angular spans
`[0.8π, 0.6π, 0.6π]` summing to `2π`. -/
theorem C6_descending_stable_and_scenario :
    (∀ (chartData : ChartData) (config : ProcessorConfig),
      List.Pairwise (fun a b : ℚ => a ≥ b)
        (((processPieData chartData config).slices).map ProcessedSlice.rawValue))
    ∧ (∀ (l : List RawSlice) (v : ℚ),
        (sortDesc l).filter (fun s => decide (s.rawValue = v)) =
          l.filter (fun s => decide (s.rawValue = v)))
    ∧ (∀ (pi : ℚ) (t : Trig),
        (processPieData dataABC defaultProcessorConfig).slices.map
            (fun s => (s.label, s.percentage)) = [("C", 40), ("A", 30), ("B", 30)]
        ∧ (computeSliceGeoms t (cfgABC pi) createEmptyOverrides
              (processPieData dataABC defaultProcessorConfig).slices
              (cfgABC pi).startAngle).map (fun g => g.endAngle - g.startAngle) =
            [pi * (4 / 5), pi * (3 / 5), pi * (3 / 5)]
        ∧ listSum ((computeSliceGeoms t (cfgABC pi) createEmptyOverrides
              (processPieData dataABC defaultProcessorConfig).slices
              (cfgABC pi).startAngle).map (fun g => g.endAngle - g.startAngle)) = 2 * pi) := by
  refine ⟨?_, ?_, ?_⟩
  · intro chartData config
    simp only [processPieData]
    rw [mkSlices_map_rawValue]
    have hsorted : List.Pairwise (fun a b : RawSlice => a.rawValue ≥ b.rawValue)
        (rawSlicesOf chartData config) := by
      simp only [rawSlicesOf]
      exact sortDesc_sorted _
    exact List.Pairwise.map RawSlice.rawValue (fun a b h => h) hsorted
  · intro l v
    exact sortDesc_filter v l
  · intro pi t
    have hspans : (computeSliceGeoms t (cfgABC pi) createEmptyOverrides
        (processPieData dataABC defaultProcessorConfig).slices
        (cfgABC pi).startAngle).map (fun g => g.endAngle - g.startAngle) =
        [pi * (4 / 5), pi * (3 / 5), pi * (3 / 5)] := by
      rw [computeSliceGeoms_spans]
      have hmm : (processPieData dataABC defaultProcessorConfig).slices.map
          (fun s => s.percentage / 100 * ((cfgABC pi).endAngle - (cfgABC pi).startAngle)) =
          ((processPieData dataABC defaultProcessorConfig).slices.map
            ProcessedSlice.percentage).map
              (fun p => p / 100 * ((cfgABC pi).endAngle - (cfgABC pi).startAngle)) := by
        rw [List.map_map]
        rfl
      rw [hmm, processPieData_dataABC_slices.2]
      simp only [List.map_cons, List.map_nil, cfgABC, List.cons.injEq, and_true]
      refine ⟨by ring, by ring, by ring⟩
    refine ⟨processPieData_dataABC_slices.1, hspans, ?_⟩
    rw [hspans]
    simp only [listSum, List.foldl_cons, List.foldl_nil]
    ring

/-! ## Claim C10: slug collisions collapse in the geometry map -/

/-- A dataset whose two labels `A/B` and `A B` slugify identically. -/
def dataSlugCollide : ChartData :=
  { dimensions := [⟨"category"⟩]
    measures := [⟨"value", some "sum"⟩]
    data := [[("category", .str "A/B"), ("value", .num 1)],
             [("category", .str "A B"), ("value", .num 2)]]
    mappingX := some "category"
    mappingValue := some "value" }

theorem rawSlicesOf_dataSlugCollide :
    rawSlicesOf dataSlugCollide defaultProcessorConfig =
      [⟨"A B", 2, [1]⟩, ⟨"A/B", 1, [0]⟩] := by
  have hgroups : groupRows "category" "value" dataSlugCollide.data =
      [⟨"A/B", [1], [0]⟩, ⟨"A B", [2], [1]⟩] := by
    simp [groupRows, groupRowsAux, addToGroups, rowCategory, rowNumeric, rowGet,
      dataSlugCollide]
  have hagg : ∀ q : ℚ, aggregate [q] "sum" = q := by
    intro q
    simp [aggregate, listSum]
  have haggm : resolveAggregation dataSlugCollide defaultProcessorConfig "value" = "sum" := by
    simp [resolveAggregation, dataSlugCollide, defaultProcessorConfig]
  simp only [rawSlicesOf]
  rw [show resolveCategoryField dataSlugCollide defaultProcessorConfig = "category" from rfl,
    show resolveValueField dataSlugCollide defaultProcessorConfig = "value" from rfl,
    haggm, hgroups]
  simp only [List.map_cons, List.map_nil, hagg]
  norm_num [sortDesc, insertDesc]

theorem processPieData_dataSlugCollide_slices :
    (processPieData dataSlugCollide defaultProcessorConfig).slices =
      [{ sliceId := "slice-a-b", label := "A B", rawValue := 2, percentage := 200 / 3,
         originalRowIndices := [1] },
       { sliceId := "slice-a-b", label := "A/B", rawValue := 1, percentage := 100 / 3,
         originalRowIndices := [0] }] := by
  have hpct : computePercentages [2, 1] = [200 / 3, 100 / 3] := by
    norm_num [computePercentages, listSum]
  have hid1 : generateSliceId "A B" 0 = "slice-a-b" := by decide
  have hid2 : generateSliceId "A/B" 1 = "slice-a-b" := by decide
  simp [processPieData, rawSlicesOf_dataSlugCollide, mkSlices, hpct, hid1, hid2]

/-- Claim C10. Two distinct labels (`A/B` and `A B`) normalize to the same
`sliceId` `slice-a-b`: `processPieData` returns two `ProcessedSlice`
entries with identical `sliceId`, and `computePieGeometry`, which keys
its output map by `sliceId`, keeps only the later entry (the second
iteration's geometry, whose start angle is 4/3 rather than the config's
0), so its slices map has strictly fewer entries than the processed
slice list. -/
theorem C10_slug_collision_last_entry_wins :
    ((processPieData dataSlugCollide defaultProcessorConfig).slices.map
        ProcessedSlice.sliceId) = ["slice-a-b", "slice-a-b"]
    ∧ (processPieData dataSlugCollide defaultProcessorConfig).slices.length = 2
    ∧ ((computeSliceGeoms trigQ witnessConfig createEmptyOverrides
          (processPieData dataSlugCollide defaultProcessorConfig).slices
          witnessConfig.startAngle).map SliceGeometry.startAngle) = [0, 4 / 3]
    ∧ (computePieGeometry trigQ (processPieData dataSlugCollide defaultProcessorConfig)
        witnessConfig createEmptyOverrides).slices.length = 1
    ∧ ((mapGet "slice-a-b" (computePieGeometry trigQ
          (processPieData dataSlugCollide defaultProcessorConfig)
          witnessConfig createEmptyOverrides).slices).map SliceGeometry.startAngle) =
        some (4 / 3) := by
  have hstarts : ((computeSliceGeoms trigQ witnessConfig createEmptyOverrides
      (processPieData dataSlugCollide defaultProcessorConfig).slices
      witnessConfig.startAngle).map SliceGeometry.startAngle) = [0, 4 / 3] := by
    rw [processPieData_dataSlugCollide_slices]
    simp only [computeSliceGeoms, List.map_cons, List.map_nil,
      sliceGeometryAt_startAngle, sliceGeometryAt_endAngle]
    norm_num [witnessConfig]
  refine ⟨?_, ?_, hstarts, ?_, ?_⟩
  · rw [processPieData_dataSlugCollide_slices]
    rfl
  · rw [processPieData_dataSlugCollide_slices]
    rfl
  · simp only [computePieGeometry]
    rw [processPieData_dataSlugCollide_slices]
    simp only [computeSliceGeoms, List.map_cons, List.map_nil, sliceGeometryAt_sliceId]
    simp [buildMap, mapSet]
  · simp only [computePieGeometry]
    rw [processPieData_dataSlugCollide_slices]
    simp only [computeSliceGeoms, List.map_cons, List.map_nil, sliceGeometryAt_sliceId]
    simp only [buildMap, List.foldl_cons, List.foldl_nil, mapSet]
    simp only [if_pos rfl, mapGet]
    simp only [if_true]
    simp only [Option.map_some, Option.some.injEq, sliceGeometryAt_startAngle,
      sliceGeometryAt_endAngle]
    norm_num [witnessConfig]
    exact sliceGeometryAt_startAngle _ _ _ _ _

/-! ## Claim C4: slice ids and row order -/

/-- Rows `{"":1, "A":1}` in encounter order blank-first. -/
def dataBlankFirst : ChartData :=
  { dimensions := [⟨"category"⟩]
    measures := [⟨"value", some "sum"⟩]
    data := [[("category", .str ""), ("value", .num 1)],
             [("category", .str "A"), ("value", .num 1)]]
    mappingX := some "category"
    mappingValue := some "value" }

/-- The same rows reordered (blank-second). -/
def dataBlankSecond : ChartData :=
  { dimensions := [⟨"category"⟩]
    measures := [⟨"value", some "sum"⟩]
    data := [[("category", .str "A"), ("value", .num 1)],
             [("category", .str ""), ("value", .num 1)]]
    mappingX := some "category"
    mappingValue := some "value" }

theorem rawSlicesOf_dataBlankFirst :
    rawSlicesOf dataBlankFirst defaultProcessorConfig =
      [⟨"", 1, [0]⟩, ⟨"A", 1, [1]⟩] := by
  have hgroups : groupRows "category" "value" dataBlankFirst.data =
      [⟨"", [1], [0]⟩, ⟨"A", [1], [1]⟩] := by
    simp [groupRows, groupRowsAux, addToGroups, rowCategory, rowNumeric, rowGet,
      dataBlankFirst]
  have hagg : ∀ q : ℚ, aggregate [q] "sum" = q := by
    intro q
    simp [aggregate, listSum]
  have haggm : resolveAggregation dataBlankFirst defaultProcessorConfig "value" = "sum" := by
    simp [resolveAggregation, dataBlankFirst, defaultProcessorConfig]
  simp only [rawSlicesOf]
  rw [show resolveCategoryField dataBlankFirst defaultProcessorConfig = "category" from rfl,
    show resolveValueField dataBlankFirst defaultProcessorConfig = "value" from rfl,
    haggm, hgroups]
  simp only [List.map_cons, List.map_nil, hagg]
  norm_num [sortDesc, insertDesc]

theorem rawSlicesOf_dataBlankSecond :
    rawSlicesOf dataBlankSecond defaultProcessorConfig =
      [⟨"A", 1, [0]⟩, ⟨"", 1, [1]⟩] := by
  have hgroups : groupRows "category" "value" dataBlankSecond.data =
      [⟨"A", [1], [0]⟩, ⟨"", [1], [1]⟩] := by
    simp [groupRows, groupRowsAux, addToGroups, rowCategory, rowNumeric, rowGet,
      dataBlankSecond]
  have hagg : ∀ q : ℚ, aggregate [q] "sum" = q := by
    intro q
    simp [aggregate, listSum]
  have haggm : resolveAggregation dataBlankSecond defaultProcessorConfig "value" = "sum" := by
    simp [resolveAggregation, dataBlankSecond, defaultProcessorConfig]
  simp only [rawSlicesOf]
  rw [show resolveCategoryField dataBlankSecond defaultProcessorConfig = "category" from rfl,
    show resolveValueField dataBlankSecond defaultProcessorConfig = "value" from rfl,
    haggm, hgroups]
  simp only [List.map_cons, List.map_nil, hagg]
  norm_num [sortDesc, insertDesc]

/-- Claim C4, counterexample.  The two datasets differ only by a
reordering of rows (same label multiset), yet `processPieData` produces
different slice-id sets: the blank label's id is `slice-<index>`, and
the index the blank group lands at depends on the tie-broken sort
position, which depends on encounter order. -/
theorem C4_counterexample :
    dataBlankFirst.data.Perm dataBlankSecond.data
    ∧ dataBlankFirst.dimensions = dataBlankSecond.dimensions
    ∧ dataBlankFirst.measures = dataBlankSecond.measures
    ∧ dataBlankFirst.mappingX = dataBlankSecond.mappingX
    ∧ dataBlankFirst.mappingValue = dataBlankSecond.mappingValue
    ∧ ((processPieData dataBlankFirst defaultProcessorConfig).slices.map
        ProcessedSlice.sliceId) = ["slice-0", "slice-a"]
    ∧ ((processPieData dataBlankSecond defaultProcessorConfig).slices.map
        ProcessedSlice.sliceId) = ["slice-a", "slice-1"]
    ∧ ((processPieData dataBlankFirst defaultProcessorConfig).slices.map
        ProcessedSlice.sliceId).toFinset ≠
      ((processPieData dataBlankSecond defaultProcessorConfig).slices.map
        ProcessedSlice.sliceId).toFinset := by
  have hids1 : ((processPieData dataBlankFirst defaultProcessorConfig).slices.map
      ProcessedSlice.sliceId) = ["slice-0", "slice-a"] := by
    have hid0 : generateSliceId "" 0 = "slice-0" := by decide
    have hida : generateSliceId "A" 1 = "slice-a" := by decide
    simp [processPieData, rawSlicesOf_dataBlankFirst, mkSlices, hid0, hida]
  have hids2 : ((processPieData dataBlankSecond defaultProcessorConfig).slices.map
      ProcessedSlice.sliceId) = ["slice-a", "slice-1"] := by
    have hid1 : generateSliceId "" 1 = "slice-1" := by decide
    have hida : generateSliceId "A" 0 = "slice-a" := by decide
    simp [processPieData, rawSlicesOf_dataBlankSecond, mkSlices, hid1, hida]
  refine ⟨?_, rfl, rfl, rfl, rfl, hids1, hids2, ?_⟩
  · exact List.Perm.swap _ _ _
  · rw [hids1, hids2]
    decide

/-! ## Slug lemmas for the amended C4 -/

theorem toLower_whitespace_not_slug (c : Char) (h : c.isWhitespace = true) :
    isSlugChar (Char.toLower c) = false := by
  simp [Char.isWhitespace] at h
  rcases h with ((h | h) | h) | h <;> subst h <;> decide

theorem collapseRuns_all_nonslug : ∀ l : List Char,
    (∀ c ∈ l, isSlugChar c = false) → l ≠ [] → collapseRuns l = ['-'] := by
  intro l
  induction l with
  | nil => intro _ h; exact absurd rfl h
  | cons c rest ih =>
      intro hall _
      cases rest with
      | nil =>
          simp only [collapseRuns]
          rw [if_neg (by simp [hall c (List.mem_cons_self c [])])]
      | cons d rest' =>
          simp only [collapseRuns]
          rw [if_neg (by simp [hall c (List.mem_cons_self c _)]),
            if_neg (by simp [hall d (List.mem_cons_of_mem c (List.mem_cons_self d _))])]
          exact ih (fun x hx => hall x (List.mem_cons_of_mem c hx)) (List.cons_ne_nil d rest')

theorem slug_of_all_whitespace (label : String)
    (h : label.data.all (·.isWhitespace) = true) : slug label = "" := by
  have hall : ∀ c ∈ label.data.map Char.toLower, isSlugChar c = false := by
    intro c hc
    obtain ⟨c₀, hc₀, rfl⟩ := List.mem_map.mp hc
    exact toLower_whitespace_not_slug c₀ (by
      rw [List.all_eq_true] at h
      exact h c₀ hc₀)
  by_cases hnil : label.data.map Char.toLower = []
  · simp [slug, hnil, collapseRuns, stripHyphens]
  · rw [slug, collapseRuns_all_nonslug _ hall hnil]
    rfl

theorem generateSliceId_of_slug_ne (label : String) (h : slug label ≠ "") (i : ℕ) :
    generateSliceId label i = "slice-" ++ slug label := by
  have hws : label.data.all (·.isWhitespace) = false := by
    cases hcase : label.data.all (·.isWhitespace) with
    | true => exact absurd (slug_of_all_whitespace label hcase) h
    | false => rfl
  simp [generateSliceId, hws, h]

theorem mkSlices_map_sliceId (rs : List RawSlice)
    (h : ∀ s ∈ rs, slug s.label ≠ "") : ∀ (ps : List ℚ) (i : ℕ),
    (mkSlices rs ps i).map ProcessedSlice.sliceId =
      rs.map (fun s => "slice-" ++ slug s.label) := by
  induction rs with
  | nil => intro ps i; rfl
  | cons s ss ih =>
      intro ps i
      simp only [mkSlices, List.map_cons]
      rw [generateSliceId_of_slug_ne s.label (h s (List.mem_cons_self s ss)) i,
        ih (fun x hx => h x (List.mem_cons_of_mem s hx))]

/-! ## Grouping lemmas for the amended C4 -/

theorem addToGroups_map_label (k : String) (v : ℚ) (i : ℕ) : ∀ gs : List Group,
    (addToGroups k v i gs).map Group.label =
      if k ∈ gs.map Group.label then gs.map Group.label else gs.map Group.label ++ [k] := by
  intro gs
  induction gs with
  | nil => simp [addToGroups]
  | cons g gs ih =>
      simp only [addToGroups]
      by_cases hgk : g.label = k
      · rw [if_pos hgk]
        simp [hgk]
      · rw [if_neg hgk]
        simp only [List.map_cons, ih]
        by_cases hmem : k ∈ gs.map Group.label
        · rw [if_pos hmem, if_pos (List.mem_cons_of_mem _ hmem)]
        · rw [if_neg hmem, if_neg (by
            intro hc
            rcases List.mem_cons.mp hc with hc | hc
            · exact hgk hc.symm
            · exact hmem hc)]
          simp

theorem addToGroups_label_toFinset (k : String) (v : ℚ) (i : ℕ) (gs : List Group) :
    ((addToGroups k v i gs).map Group.label).toFinset =
      insert k (gs.map Group.label).toFinset := by
  rw [addToGroups_map_label]
  split
  · next hmem =>
      rw [Finset.insert_eq_self.mpr (List.mem_toFinset.mpr hmem)]
  · next hmem =>
      rw [List.toFinset_append]
      simp [Finset.union_comm, Finset.insert_eq]

theorem groupRowsAux_label_toFinset (cat val : String) : ∀ (rows : List DataRow)
    (i : ℕ) (acc : List Group),
    ((groupRowsAux cat val rows i acc).map Group.label).toFinset =
      (acc.map Group.label).toFinset ∪
        (rows.map (fun r => rowCategory r cat)).toFinset := by
  intro rows
  induction rows with
  | nil => intro i acc; simp [groupRowsAux]
  | cons r rs ih =>
      intro i acc
      simp only [groupRowsAux]
      rw [ih]
      rw [addToGroups_label_toFinset]
      simp only [List.map_cons, List.toFinset_cons]
      rw [Finset.insert_union, Finset.union_insert]

theorem groupRows_label_toFinset (cat val : String) (rows : List DataRow) :
    ((groupRows cat val rows).map Group.label).toFinset =
      (rows.map (fun r => rowCategory r cat)).toFinset := by
  rw [groupRows, groupRowsAux_label_toFinset]
  simp

theorem toFinset_map_congr (f : String → String) (l₁ l₂ : List String)
    (h : l₁.toFinset = l₂.toFinset) :
    (l₁.map f).toFinset = (l₂.map f).toFinset := by
  ext x
  simp only [List.mem_toFinset, List.mem_map]
  constructor
  · rintro ⟨a, ha, rfl⟩
    exact ⟨a, List.mem_toFinset.mp (h ▸ List.mem_toFinset.mpr ha), rfl⟩
  · rintro ⟨a, ha, rfl⟩
    exact ⟨a, List.mem_toFinset.mp (h ▸ List.mem_toFinset.mpr ha), rfl⟩

theorem rawSlicesOf_label_toFinset (d : ChartData) (config : ProcessorConfig) :
    ((rawSlicesOf d config).map RawSlice.label).toFinset =
      (d.data.map (fun r => rowCategory r (resolveCategoryField d config))).toFinset := by
  simp only [rawSlicesOf]
  have hperm : ((sortDesc ((groupRows (resolveCategoryField d config)
      (resolveValueField d config) d.data).map (fun g =>
        (⟨g.label, aggregate g.values (resolveAggregation d config
          (resolveValueField d config)), g.rowIndices⟩ : RawSlice)))).map RawSlice.label).Perm
      (((groupRows (resolveCategoryField d config) (resolveValueField d config) d.data).map
        (fun g => (⟨g.label, aggregate g.values (resolveAggregation d config
          (resolveValueField d config)), g.rowIndices⟩ : RawSlice))).map RawSlice.label) :=
    (sortDesc_perm _).map _
  rw [List.toFinset_eq_of_perm _ _ hperm, List.map_map]
  have : (RawSlice.label ∘ fun g : Group =>
      (⟨g.label, aggregate g.values (resolveAggregation d config
        (resolveValueField d config)), g.rowIndices⟩ : RawSlice)) = Group.label := rfl
  rw [this, groupRows_label_toFinset]

/-- Claim C4, amended.  `generateSliceId` is a pure function of the label
text whenever the label's slug is non-empty; and for every two datasets
that differ only by a reordering of rows (same label multiset) in which
every row's category slugifies to a non-empty string, `processPieData`
produces the same set of `sliceId` values.  (The unrestricted claim is
false: a blank label's id is `slice-<index>`, which depends on the sort
position — see the counterexample.) -/
theorem C4_amended_ids_reorder_invariant (d₁ d₂ : ChartData) (config : ProcessorConfig)
    (hperm : d₁.data.Perm d₂.data)
    (hdim : d₁.dimensions = d₂.dimensions)
    (hmeas : d₁.measures = d₂.measures)
    (hmx : d₁.mappingX = d₂.mappingX)
    (hmv : d₁.mappingValue = d₂.mappingValue)
    (hslug : ∀ row ∈ d₁.data,
      slug (rowCategory row (resolveCategoryField d₁ config)) ≠ "") :
    ((processPieData d₁ config).slices.map ProcessedSlice.sliceId).toFinset =
      ((processPieData d₂ config).slices.map ProcessedSlice.sliceId).toFinset := by
  have hcat : resolveCategoryField d₂ config = resolveCategoryField d₁ config := by
    unfold resolveCategoryField
    rw [← hdim, ← hmx]
  have hcats : ((d₁.data.map (fun r => rowCategory r (resolveCategoryField d₁ config))).toFinset : Finset String) =
      (d₂.data.map (fun r => rowCategory r (resolveCategoryField d₁ config))).toFinset :=
    List.toFinset_eq_of_perm _ _ (hperm.map _)
  have hlab₁ := rawSlicesOf_label_toFinset d₁ config
  have hlab₂ := rawSlicesOf_label_toFinset d₂ config
  rw [hcat] at hlab₂
  have hlabs : ((rawSlicesOf d₁ config).map RawSlice.label).toFinset =
      ((rawSlicesOf d₂ config).map RawSlice.label).toFinset := by
    rw [hlab₁, hlab₂, hcats]
  have hs₁ : ∀ s ∈ rawSlicesOf d₁ config, slug s.label ≠ "" := by
    intro s hs
    have hmem : s.label ∈ ((rawSlicesOf d₁ config).map RawSlice.label).toFinset :=
      List.mem_toFinset.mpr (List.mem_map_of_mem _ hs)
    rw [hlab₁] at hmem
    obtain ⟨row, hrow, heq⟩ := List.mem_map.mp (List.mem_toFinset.mp hmem)
    rw [← heq]
    exact hslug row hrow
  have hs₂ : ∀ s ∈ rawSlicesOf d₂ config, slug s.label ≠ "" := by
    intro s hs
    have hmem : s.label ∈ ((rawSlicesOf d₂ config).map RawSlice.label).toFinset :=
      List.mem_toFinset.mpr (List.mem_map_of_mem _ hs)
    rw [hlab₂, ← hcats] at hmem
    obtain ⟨row, hrow, heq⟩ := List.mem_map.mp (List.mem_toFinset.mp hmem)
    rw [← heq]
    exact hslug row hrow
  have hids : ∀ (d : ChartData) (hd : ∀ s ∈ rawSlicesOf d config, slug s.label ≠ ""),
      (processPieData d config).slices.map ProcessedSlice.sliceId =
        ((rawSlicesOf d config).map RawSlice.label).map (fun lbl => "slice-" ++ slug lbl) := by
    intro d hd
    simp only [processPieData]
    rw [mkSlices_map_sliceId _ hd, List.map_map]
    rfl
  rw [hids d₁ hs₁, hids d₂ hs₂]
  exact toFinset_map_congr _ _ _ hlabs

/-- Model of `dataABC` with its first two rows swapped. -/
def dataABCswap : ChartData :=
  { dimensions := [⟨"category"⟩]
    measures := [⟨"value", some "sum"⟩]
    data := [[("category", .str "B"), ("value", .num 30)],
             [("category", .str "A"), ("value", .num 30)],
             [("category", .str "C"), ("value", .num 40)]]
    mappingX := some "category"
    mappingValue := some "value" }

theorem C4_witness :
    dataABC.data.Perm dataABCswap.data ∧
    dataABC.dimensions = dataABCswap.dimensions ∧
    dataABC.measures = dataABCswap.measures ∧
    dataABC.mappingX = dataABCswap.mappingX ∧
    dataABC.mappingValue = dataABCswap.mappingValue ∧
    (∀ row ∈ dataABC.data,
      slug (rowCategory row (resolveCategoryField dataABC defaultProcessorConfig)) ≠ "") ∧
    ((processPieData dataABC defaultProcessorConfig).slices.map
        ProcessedSlice.sliceId).toFinset =
      ((processPieData dataABCswap defaultProcessorConfig).slices.map
        ProcessedSlice.sliceId).toFinset := by
  have hperm : dataABC.data.Perm dataABCswap.data := List.Perm.swap _ _ _
  have hslug : ∀ row ∈ dataABC.data,
      slug (rowCategory row (resolveCategoryField dataABC defaultProcessorConfig)) ≠ "" := by
    decide
  exact ⟨hperm, rfl, rfl, rfl, rfl, hslug,
    C4_amended_ids_reorder_invariant dataABC dataABCswap defaultProcessorConfig
      hperm rfl rfl rfl rfl hslug⟩

/-! ## Map lemmas (JS `Map` model) -/

theorem mapSet_keys {α : Type} (k : String) (v : α) : ∀ m : List (String × α),
    (mapSet k v m).map Prod.fst =
      if k ∈ m.map Prod.fst then m.map Prod.fst else m.map Prod.fst ++ [k] := by
  intro m
  induction m with
  | nil => simp [mapSet]
  | cons kv rest ih =>
      obtain ⟨k', v'⟩ := kv
      simp only [mapSet]
      by_cases hk : k' = k
      · rw [if_pos hk]
        simp [hk]
      · rw [if_neg hk]
        simp only [List.map_cons, ih]
        by_cases hmem : k ∈ rest.map Prod.fst
        · rw [if_pos hmem, if_pos (List.mem_cons_of_mem _ hmem)]
        · rw [if_neg hmem, if_neg (by
            intro hc
            rcases List.mem_cons.mp hc with hc | hc
            · exact hk hc.symm
            · exact hmem hc)]
          simp

theorem mapSet_not_mem {α : Type} (k : String) (v : α) : ∀ m : List (String × α),
    k ∉ m.map Prod.fst → mapSet k v m = m ++ [(k, v)] := by
  intro m
  induction m with
  | nil => intro _; rfl
  | cons kv rest ih =>
      obtain ⟨k', v'⟩ := kv
      intro hmem
      simp only [List.map_cons, List.mem_cons] at hmem
      push_neg at hmem
      simp only [mapSet]
      rw [if_neg (fun h => hmem.1 h.symm)]
      rw [ih hmem.2]
      rfl

theorem foldl_mapSet_eq_append {α : Type} : ∀ (l acc : List (String × α)),
    ((acc ++ l).map Prod.fst).Nodup →
    l.foldl (fun m kv => mapSet kv.1 kv.2 m) acc = acc ++ l := by
  intro l
  induction l with
  | nil => intro acc _; simp
  | cons kv rest ih =>
      intro acc hnodup
      obtain ⟨k, v⟩ := kv
      have hknotin : k ∉ acc.map Prod.fst := by
        rw [List.map_append] at hnodup
        have hdisj := (List.nodup_append.mp hnodup).2.2
        intro hc
        exact hdisj hc (by simp)
      simp only [List.foldl_cons]
      rw [mapSet_not_mem k v acc hknotin]
      have : ((acc ++ [(k, v)]) ++ rest).map Prod.fst = ((acc ++ (k, v) :: rest)).map Prod.fst := by
        simp
      rw [ih (acc ++ [(k, v)]) (by rw [this]; exact hnodup)]
      simp

theorem buildMap_eq_self {α : Type} (l : List (String × α))
    (h : (l.map Prod.fst).Nodup) : buildMap l = l := by
  have := foldl_mapSet_eq_append l [] (by simpa using h)
  simpa [buildMap] using this

theorem buildMap_keys_nodup {α : Type} : ∀ (l acc : List (String × α)),
    (acc.map Prod.fst).Nodup →
    ((l.foldl (fun m kv => mapSet kv.1 kv.2 m) acc).map Prod.fst).Nodup := by
  intro l
  induction l with
  | nil => intro acc h; exact h
  | cons kv rest ih =>
      intro acc h
      obtain ⟨k, v⟩ := kv
      simp only [List.foldl_cons]
      apply ih
      rw [mapSet_keys]
      split
      · exact h
      · next hmem =>
          rw [List.nodup_append]
          exact ⟨h, List.nodup_singleton k, by
            intro a ha hb
            simp at hb
            rw [hb] at ha
            exact hmem ha⟩

theorem buildMap_nodup_keys {α : Type} (l : List (String × α)) :
    ((buildMap l).map Prod.fst).Nodup :=
  buildMap_keys_nodup l [] (by simp)

theorem mapSet_keys_subset {α : Type} (k : String) (v : α) (m : List (String × α)) :
    ∀ x ∈ (mapSet k v m).map Prod.fst, x ∈ m.map Prod.fst ∨ x = k := by
  intro x hx
  rw [mapSet_keys] at hx
  split at hx
  · exact Or.inl hx
  · rcases List.mem_append.mp hx with h | h
    · exact Or.inl h
    · simp at h
      exact Or.inr h

theorem buildMap_keys_subset {α : Type} : ∀ (l acc : List (String × α)),
    ∀ x ∈ ((l.foldl (fun m kv => mapSet kv.1 kv.2 m) acc).map Prod.fst),
      x ∈ acc.map Prod.fst ∨ x ∈ l.map Prod.fst := by
  intro l
  induction l with
  | nil => intro acc x hx; exact Or.inl hx
  | cons kv rest ih =>
      intro acc x hx
      simp only [List.foldl_cons] at hx
      rcases ih (mapSet kv.1 kv.2 acc) x hx with h | h
      · rcases mapSet_keys_subset kv.1 kv.2 acc x h with h' | h'
        · exact Or.inl h'
        · exact Or.inr (by simp [h'])
      · exact Or.inr (List.mem_cons_of_mem _ h)

theorem mapGet_eq_some_of_mem_keys {α : Type} (k : String) : ∀ m : List (String × α),
    k ∈ m.map Prod.fst → ∃ v, mapGet k m = some v := by
  intro m
  induction m with
  | nil => intro h; simp at h
  | cons kv rest ih =>
      obtain ⟨k', v'⟩ := kv
      intro h
      rw [List.map_cons] at h
      simp only [mapGet]
      by_cases hk : k' = k
      · exact ⟨v', by rw [if_pos hk]⟩
      · rcases List.mem_cons.mp h with h' | h'
        · exact absurd h'.symm hk
        · rw [if_neg hk]
          exact ih h'

/-! ## Scene-traversal lemmas -/

theorem preorderList_append : ∀ l₁ l₂ : List SceneNode,
    preorderList (l₁ ++ l₂) = preorderList l₁ ++ preorderList l₂ := by
  intro l₁
  induction l₁ with
  | nil => intro l₂; rfl
  | cons n ns ih =>
      intro l₂
      simp only [List.cons_append, preorderList, List.append_eq, ih, List.append_assoc]

theorem preorderNode_leaf (n : SceneNode) (h : n.children = []) : preorderNode n = [n] := by
  cases n with
  | mk id ty p cs d tf i v =>
      simp only [SceneNode.children] at h
      subst h
      rfl

theorem preorderList_leaves : ∀ l : List SceneNode,
    (∀ n ∈ l, n.children = []) → preorderList l = l := by
  intro l
  induction l with
  | nil => intro _; rfl
  | cons n ns ih =>
      intro h
      simp only [preorderList]
      rw [preorderNode_leaf n (h n (List.mem_cons_self n ns)),
        ih (fun x hx => h x (List.mem_cons_of_mem n hx))]
      rfl

theorem applyTransforms_id (m : List (String × NodeTransform)) (n : SceneNode) :
    (applyTransforms m n).id = n.id := by
  cases n
  rfl

theorem applyTransforms_parentId (m : List (String × NodeTransform)) (n : SceneNode) :
    (applyTransforms m n).parentId = n.parentId := by
  cases n
  rfl

mutual
theorem preorderNode_applyTransforms (m : List (String × NodeTransform)) :
    ∀ n : SceneNode, preorderNode (applyTransforms m n) =
      (preorderNode n).map (applyTransforms m)
  | .mk id ty p cs d tf i v => by
      simp only [applyTransforms, preorderNode, List.map_cons]
      rw [preorderList_applyTransforms m cs]

theorem preorderList_applyTransforms (m : List (String × NodeTransform)) :
    ∀ l : List SceneNode, preorderList (applyTransformsList m l) =
      (preorderList l).map (applyTransforms m)
  | [] => rfl
  | n :: ns => by
      simp only [applyTransformsList, preorderList, List.map_append]
      rw [preorderNode_applyTransforms m n, preorderList_applyTransforms m ns]
end

theorem preorder_applyTransforms_idparent (m : List (String × NodeTransform)) (n : SceneNode) :
    (preorderNode (applyTransforms m n)).map (fun x => (x.id, x.parentId)) =
      (preorderNode n).map (fun x => (x.id, x.parentId)) := by
  rw [preorderNode_applyTransforms, List.map_map]
  apply List.map_congr_left
  intro x _
  simp only [Function.comp_apply, applyTransforms_id, applyTransforms_parentId]

/-! ## Geometry-map id lemmas -/

theorem computeSliceGeoms_map_sliceId (t : Trig) (config : PieGeometryConfig)
    (ov : GeometryOverrides) (ss : List ProcessedSlice) : ∀ cur : ℚ,
    (computeSliceGeoms t config ov ss cur).map SliceGeometry.sliceId =
      ss.map ProcessedSlice.sliceId := by
  induction ss with
  | nil => intro cur; rfl
  | cons s rest ih =>
      intro cur
      simp only [computeSliceGeoms, List.map_cons, ih, sliceGeometryAt_sliceId]

theorem generateSliceId_form (label : String) (i : ℕ) :
    ∃ r, generateSliceId label i = "slice-" ++ r := by
  simp only [generateSliceId]
  split
  · exact ⟨toString i, rfl⟩
  · split
    · exact ⟨toString i, rfl⟩
    · exact ⟨slug label, rfl⟩

theorem mkSlices_sliceId_form : ∀ (rs : List RawSlice) (ps : List ℚ) (i : ℕ),
    ∀ x ∈ (mkSlices rs ps i).map ProcessedSlice.sliceId, ∃ r, x = "slice-" ++ r := by
  intro rs
  induction rs with
  | nil => intro ps i x hx; simp [mkSlices] at hx
  | cons s ss ih =>
      intro ps i x hx
      simp only [mkSlices, List.map_cons, List.mem_cons] at hx
      rcases hx with hx | hx
      · rw [hx]
        exact generateSliceId_form s.label i
      · exact ih ps.tail (i + 1) x hx

theorem processPieData_sliceId_form (chartData : ChartData) (config : ProcessorConfig) :
    ∀ x ∈ (processPieData chartData config).slices.map ProcessedSlice.sliceId,
      ∃ r, x = "slice-" ++ r := by
  simp only [processPieData]
  exact mkSlices_sliceId_form _ _ 0

/-! ## Label-loop characterization lemmas -/

theorem computeLabelGeometry_labels (t : Trig) (config : PieGeometryConfig)
    (ov : GeometryOverrides) : ∀ entries : List (String × SliceGeometry),
    (computeLabelGeometry t config ov entries).1 =
      entries.map (fun e => labelForSlice t config ov e.1 e.2) := by
  intro entries
  induction entries with
  | nil => rfl
  | cons e rest ih =>
      obtain ⟨k, sl⟩ := e
      by_cases hmode : (labelForSlice t config ov k sl).anchorMode = LabelAnchorMode.outside
      · simp only [computeLabelGeometry]
        rw [if_pos hmode]
        simp only [List.map_cons, ih]
      · simp only [computeLabelGeometry]
        rw [if_neg hmode]
        simp only [List.map_cons, ih]

theorem labelForSlice_labelId (t : Trig) (config : PieGeometryConfig)
    (ov : GeometryOverrides) (sliceId : String) (slice : SliceGeometry) :
    (labelForSlice t config ov sliceId slice).labelId =
      sliceId ++ "-label-" ++ toString 0 := rfl

theorem computeLabelGeometry_lines_ids (t : Trig) (config : PieGeometryConfig)
    (ov : GeometryOverrides) : ∀ entries : List (String × SliceGeometry),
    (computeLabelGeometry t config ov entries).2.map
        (fun ll => (ll.sliceId, ll.labelIndex)) =
      (entries.filter (fun e =>
        decide ((labelForSlice t config ov e.1 e.2).anchorMode =
          LabelAnchorMode.outside))).map (fun e => (e.1, 0)) := by
  intro entries
  induction entries with
  | nil => rfl
  | cons e rest ih =>
      obtain ⟨k, sl⟩ := e
      by_cases hmode : (labelForSlice t config ov k sl).anchorMode = LabelAnchorMode.outside
      · simp only [computeLabelGeometry]
        rw [if_pos hmode]
        rw [List.filter_cons, if_pos (by simp [hmode])]
        simp only [List.map_cons, ih]
        rfl
      · simp only [computeLabelGeometry]
        rw [if_neg hmode]
        rw [List.filter_cons, if_neg (by simp [hmode])]
        exact ih

/-! ## String distinctness helpers (for node-id disjointness) -/

theorem str_append_cancel_right {a b s : String} (h : a ++ s = b ++ s) : a = b := by
  have hd := congrArg String.data h
  rw [String.data_append, String.data_append] at hd
  exact String.ext (List.append_cancel_right hd)

theorem str_append_cancel_left {a s t : String} (h : a ++ s = a ++ t) : s = t := by
  have hd := congrArg String.data h
  rw [String.data_append, String.data_append] at hd
  exact String.ext (List.append_cancel_left hd)

theorem str_last_append (s t : String) (h : t.data ≠ []) :
    (s ++ t).data.getLast? = t.data.getLast? := by
  rw [String.data_append, List.getLast?_append]
  cases hlast : t.data.getLast? with
  | none => exact absurd (List.getLast?_eq_none_iff.mp hlast) h
  | some c => rw [Option.or_some]

theorem str_ne_of_last {a b s t : String} (hs : s.data ≠ []) (ht : t.data ≠ [])
    (h : s.data.getLast? ≠ t.data.getLast?) : a ++ s ≠ b ++ t := by
  intro heq
  apply h
  rw [← str_last_append a s hs, ← str_last_append b t ht, heq]

theorem str_head_append (s t : String) (h : s.data ≠ []) :
    (s ++ t).data.head? = s.data.head? := by
  rw [String.data_append, List.head?_append]
  cases hh : s.data.head? with
  | none => exact absurd (List.head?_eq_none_iff.mp hh) h
  | some c => rw [Option.or_some]

theorem str_ne_of_head {p q : String} (h : p.data.head? ≠ q.data.head?) : p ≠ q := by
  intro heq
  exact h (by rw [heq])

theorem sliceId_head {k : String} (hk : ∃ r, k = "slice-" ++ r) :
    k.data.head? = some 's' := by
  obtain ⟨r, rfl⟩ := hk
  rw [str_head_append "slice-" r (by decide)]
  decide

theorem sliceId_append_head {k : String} (hk : ∃ r, k = "slice-" ++ r) (t : String) :
    (k ++ t).data.head? = some 's' := by
  obtain ⟨r, rfl⟩ := hk
  rw [String.append_assoc]
  rw [str_head_append "slice-" (r ++ t) (by decide)]
  decide

theorem leader_id_head (k t : String) :
    (("leader-line-" ++ k) ++ t).data.head? = some 'l' := by
  rw [String.append_assoc]
  rw [str_head_append "leader-line-" (k ++ t) (by decide)]
  decide

theorem leader_id_snd (k t : String) :
    ((("leader-line-" ++ k) ++ t)).data[1]? = some 'e' := by
  rw [String.append_assoc, String.data_append]
  rw [List.getElem?_append]
  rw [if_pos (by decide)]
  decide

theorem str_ne_of_snd {p q : String} (h : p.data[1]? ≠ q.data[1]?) : p ≠ q := by
  intro heq
  exact h (by rw [heq])

/-! ## Distinctness of the generated node ids -/

theorem nodeIds_nodup (S T : List String) (hS : S.Nodup) (hT : T.Nodup)
    (hSform : ∀ k ∈ S, ∃ r, k = "slice-" ++ r)
    (hTform : ∀ k ∈ T, ∃ r, k = "slice-" ++ r) :
    ("chart-root" :: "main-ring" ::
      (S.flatMap (fun k => [k ++ "-group", k ++ "-arc", k ++ "-pct"]) ++
        "labels-layer" ::
          (S.map (fun k => k ++ "-label-" ++ toString 0) ++
            T.map (fun k => "leader-line-" ++ k ++ "-" ++ toString 0)))).Nodup := by
  have hG : ∀ a ∈ S.flatMap (fun k => [k ++ "-group", k ++ "-arc", k ++ "-pct"]),
      ∃ k, k ∈ S ∧ (a = k ++ "-group" ∨ a = k ++ "-arc" ∨ a = k ++ "-pct") := by
    intro a ha
    obtain ⟨k, hk, hmem⟩ := List.mem_flatMap.mp ha
    exact ⟨k, hk, by simpa using hmem⟩
  have hGhead : ∀ a ∈ S.flatMap (fun k => [k ++ "-group", k ++ "-arc", k ++ "-pct"]),
      a.data.head? = some 's' := by
    intro a ha
    obtain ⟨k, hkS, hcase⟩ := hG a ha
    rcases hcase with rfl | rfl | rfl <;> exact sliceId_append_head (hSform k hkS) _
  have hLhead : ∀ a ∈ S.map (fun k => k ++ "-label-" ++ toString 0),
      a.data.head? = some 's' := by
    intro a ha
    obtain ⟨k, hkS, rfl⟩ := List.mem_map.mp ha
    rw [String.append_assoc]
    exact sliceId_append_head (hSform k hkS) _
  have hDhead : ∀ a ∈ T.map (fun k => "leader-line-" ++ k ++ "-" ++ toString 0),
      a.data.head? = some 'l' := by
    intro a ha
    obtain ⟨k, _, rfl⟩ := List.mem_map.mp ha
    rw [String.append_assoc ("leader-line-" ++ k) "-" (toString 0)]
    exact leader_id_head k _
  have hDsnd : ∀ a ∈ T.map (fun k => "leader-line-" ++ k ++ "-" ++ toString 0),
      a.data[1]? = some 'e' := by
    intro a ha
    obtain ⟨k, _, rfl⟩ := List.mem_map.mp ha
    rw [String.append_assoc ("leader-line-" ++ k) "-" (toString 0)]
    exact leader_id_snd k _
  rw [List.nodup_cons]
  constructor
  · intro hmem
    rcases List.mem_cons.mp hmem with h | hmem
    · exact absurd h (by decide)
    rcases List.mem_append.mp hmem with h | hmem
    · exact absurd (hGhead _ h) (by decide)
    rcases List.mem_cons.mp hmem with h | hmem
    · exact absurd h (by decide)
    rcases List.mem_append.mp hmem with h | h
    · exact absurd (hLhead _ h) (by decide)
    · exact absurd (hDhead _ h) (by decide)
  rw [List.nodup_cons]
  constructor
  · intro hmem
    rcases List.mem_append.mp hmem with h | hmem
    · exact absurd (hGhead _ h) (by decide)
    rcases List.mem_cons.mp hmem with h | hmem
    · exact absurd h (by decide)
    rcases List.mem_append.mp hmem with h | h
    · exact absurd (hLhead _ h) (by decide)
    · exact absurd (hDhead _ h) (by decide)
  rw [List.nodup_append]
  refine ⟨?_, ?_, ?_⟩
  · -- the slice-group/arc/pct block
    rw [List.nodup_flatMap]
    constructor
    · intro k _
      simp only [List.nodup_cons, List.mem_cons, List.not_mem_nil, or_false,
        List.nodup_nil, and_true, not_or]
      exact ⟨⟨str_ne_of_last (by decide) (by decide) (by decide),
        str_ne_of_last (by decide) (by decide) (by decide)⟩,
        str_ne_of_last (by decide) (by decide) (by decide), not_false⟩
    · refine hS.imp ?_
      intro k₁ k₂ hne
      intro a ha₁ ha₂
      simp only [Function.onFun, List.mem_cons, List.not_mem_nil, or_false] at ha₁ ha₂
      rcases ha₁ with rfl | rfl | rfl <;> rcases ha₂ with heq | heq | heq <;>
        first
          | exact hne (str_append_cancel_right heq)
          | exact (str_ne_of_last (by decide) (by decide) (by decide)) heq
  · -- "labels-layer" :: labels ++ leader lines
    rw [List.nodup_cons]
    constructor
    · intro hmem
      rcases List.mem_append.mp hmem with h | h
      · exact absurd (hLhead _ h) (by decide)
      · exact absurd (hDsnd _ h) (by decide)
    rw [List.nodup_append]
    refine ⟨?_, ?_, ?_⟩
    · refine hS.map ?_
      intro k₁ k₂ h
      exact str_append_cancel_right (str_append_cancel_right h)
    · refine hT.map ?_
      intro k₁ k₂ h
      exact str_append_cancel_left
        (str_append_cancel_right (str_append_cancel_right h))
    · intro a haL haD
      exact absurd ((hLhead _ haL).symm.trans (hDhead _ haD)) (by decide)
  · -- the group block is disjoint from the label layer
    intro a haG hmem
    obtain ⟨k, hkS, hcase⟩ := hG a haG
    rcases List.mem_cons.mp hmem with h | hmem
    · rw [h] at haG
      exact absurd (hGhead _ haG) (by decide)
    rcases List.mem_append.mp hmem with h | h
    · obtain ⟨k', _, heq⟩ := List.mem_map.mp h
      rcases hcase with rfl | rfl | rfl <;>
        exact (str_ne_of_last (by decide) (by decide) (by decide)) heq.symm
    · exact absurd ((hGhead _ haG).symm.trans (hDhead _ h)) (by decide)

/-! ## Preorder characterization of the built scene graph -/

theorem preorderList_sliceGroups : ∀ ks : List String,
    (preorderList (ks.map sliceGroupNode)).map (fun n => (n.id, n.parentId)) =
      ks.flatMap (fun k =>
        [(k ++ "-group", some "main-ring"),
         (k ++ "-arc", some (k ++ "-group")),
         (k ++ "-pct", some (k ++ "-group"))]) := by
  intro ks
  induction ks with
  | nil => rfl
  | cons k rest ih =>
      simp only [List.map_cons, preorderList, List.map_append, List.flatMap_cons, ih]
      rfl

theorem buildPieSceneGraph_idparents (st : PieGeometryState)
    (hinner : st.config.innerRadius = 0) (hanno : st.annotations = []) :
    (preorderNode (buildPieSceneGraph st)).map (fun n => (n.id, n.parentId)) =
      ("chart-root", Option.none) :: ("main-ring", some "chart-root") ::
        (((st.slices.map Prod.fst).flatMap (fun k =>
            [(k ++ "-group", some "main-ring"),
             (k ++ "-arc", some (k ++ "-group")),
             (k ++ "-pct", some (k ++ "-group"))])) ++
          ("labels-layer", some "chart-root") ::
            ((st.labels.map (fun lg => (lg.labelId, some "labels-layer"))) ++
              (st.leaderLines.map (fun ll =>
                ("leader-line-" ++ ll.sliceId ++ "-" ++ toString ll.labelIndex,
                  some "labels-layer"))))) := by
  have hc : ¬ st.config.innerRadius > 0 := by rw [hinner]; norm_num
  have ha : ¬ st.annotations.length > 0 := by rw [hanno]; norm_num
  simp only [buildPieSceneGraph, if_neg hc, if_neg ha]
  simp only [List.append_nil]
  simp only [preorderNode, preorderList, List.append_nil]
  rw [preorderList_append]
  have hmm : st.slices.map (fun kv => sliceGroupNode kv.1) =
      (st.slices.map Prod.fst).map sliceGroupNode := by
    rw [List.map_map]
    rfl
  simp only [List.map_cons, List.map_append]
  rw [hmm]
  have hgroups := preorderList_sliceGroups (st.slices.map Prod.fst)
  have hlabels : preorderList (st.labels.map labelNode) = st.labels.map labelNode := by
    apply preorderList_leaves
    intro n hn
    obtain ⟨lg, _, rfl⟩ := List.mem_map.mp hn
    rfl
  have hleaders : preorderList (st.leaderLines.map leaderLineNode) =
      st.leaderLines.map leaderLineNode := by
    apply preorderList_leaves
    intro n hn
    obtain ⟨ll, _, rfl⟩ := List.mem_map.mp hn
    rfl
  rw [hlabels, hleaders]
  rw [hgroups]
  simp only [List.map_map]
  simp only [SceneNode.id, SceneNode.parentId, Function.comp_def, labelNode, leaderLineNode]
  simp only [List.cons_append]

theorem preorder_applyTransforms_ids (m : List (String × NodeTransform)) (n : SceneNode) :
    (preorderNode (applyTransforms m n)).map SceneNode.id =
      (preorderNode n).map SceneNode.id := by
  rw [preorderNode_applyTransforms, List.map_map]
  apply List.map_congr_left
  intro x _
  simp only [Function.comp_apply, applyTransforms_id]

theorem scene_nodes_eq (geometry : PieGeometryState) (theme : ChartTheme)
    (hnodup : ((preorderNode (buildPieSceneGraph geometry)).map SceneNode.id).Nodup) :
    (resolveSceneGraph geometry theme).nodes =
      (preorderNode (applyTransforms theme.nodeTransforms
        (buildPieSceneGraph geometry))).map (fun n => (n.id, n)) := by
  show buildMap _ = _
  apply buildMap_eq_self
  rw [List.map_map]
  have hcomp : (Prod.fst ∘ fun n : SceneNode => (n.id, n)) = SceneNode.id := rfl
  rw [hcomp, preorder_applyTransforms_ids]
  exact hnodup

theorem flatMap_three_length (l : List String) :
    (l.flatMap (fun k => [k ++ "-group", k ++ "-arc", k ++ "-pct"])).length =
      3 * l.length := by
  induction l with
  | nil => rfl
  | cons k rest ih =>
      simp only [List.flatMap_cons, List.length_append, ih, List.length_cons,
        List.length_nil]
      omega

theorem buildMap_mem_keys {α : Type} (l : List (String × α)) :
    ∀ x ∈ (buildMap l).map Prod.fst, x ∈ l.map Prod.fst := by
  intro x hx
  rcases buildMap_keys_subset l [] x hx with h | h
  · simp at h
  · exact h

/-- Claim C3. For the pipeline state over any dataset, with inner radius 0
and no annotations, `resolveSceneGraph` returns a node set forming a
tree in which every non-root node's `parentId` resolves to a node
present in the flat id→node lookup map (the root's `parentId` is null),
and the lookup map contains exactly
`1 (root) + 1 (ring) + 3N (slice-group, arc, percentage-label) +
1 (label-layer) + N (labels, one per slice) + leader-line-count`
entries. -/
theorem C3_scene_graph_parents_and_count (t : Trig) (chartData : ChartData)
    (pconfig : ProcessorConfig) (config : PieGeometryConfig) (ov : GeometryOverrides)
    (theme : ChartTheme)
    (hinner : config.innerRadius = 0) (hanno : ov.annotations = []) :
    (resolveSceneGraph (resolveGeometry t (processPieData chartData pconfig) config ov)
        theme).root.parentId = Option.none
    ∧ (∀ kv ∈ (resolveSceneGraph (resolveGeometry t (processPieData chartData pconfig)
            config ov) theme).nodes, ∀ p, kv.2.parentId = some p →
        ∃ m, mapGet p (resolveSceneGraph (resolveGeometry t (processPieData chartData
            pconfig) config ov) theme).nodes = some m)
    ∧ (resolveGeometry t (processPieData chartData pconfig) config ov).labels.length =
        (resolveGeometry t (processPieData chartData pconfig) config ov).slices.length
    ∧ (resolveSceneGraph (resolveGeometry t (processPieData chartData pconfig) config ov)
          theme).nodes.length =
        1 + 1 +
          3 * (resolveGeometry t (processPieData chartData pconfig) config ov).slices.length
          + 1 + (resolveGeometry t (processPieData chartData pconfig) config ov).labels.length
          + (resolveGeometry t (processPieData chartData pconfig) config ov).leaderLines.length := by
  set pd := processPieData chartData pconfig with hpd
  set st := resolveGeometry t pd config ov with hst
  have hstconfig : st.config = config := rfl
  have hstanno : st.annotations = [] := by
    show ov.annotations.map Prod.snd = []
    rw [hanno]
    rfl
  have hstslices : st.slices = buildMap
      ((computeSliceGeoms t config ov pd.slices config.startAngle).map
        (fun g => (g.sliceId, g))) := rfl
  have hstlabels : st.labels = (computeLabelGeometry t config ov st.slices).1 := rfl
  have hstlines : st.leaderLines = (computeLabelGeometry t config ov st.slices).2 := rfl
  have hSnodup : (st.slices.map Prod.fst).Nodup := by
    rw [hstslices]
    exact buildMap_nodup_keys _
  have hSform : ∀ k ∈ st.slices.map Prod.fst, ∃ r, k = "slice-" ++ r := by
    intro k hk
    rw [hstslices] at hk
    have hmem := buildMap_mem_keys _ k hk
    rw [List.map_map] at hmem
    have hcomp : (Prod.fst ∘ fun g : SliceGeometry => (g.sliceId, g)) =
        SliceGeometry.sliceId := rfl
    rw [hcomp, computeSliceGeoms_map_sliceId] at hmem
    rw [hpd] at hmem
    exact processPieData_sliceId_form chartData pconfig k hmem
  have hlabels_eq : st.labels = st.slices.map (fun e => labelForSlice t config ov e.1 e.2) := by
    rw [hstlabels, computeLabelGeometry_labels]
  have hlabLen : st.labels.length = st.slices.length := by
    rw [hlabels_eq, List.length_map]
  have hlabelIds : st.labels.map (fun lg => lg.labelId) =
      (st.slices.map Prod.fst).map (fun k => k ++ "-label-" ++ toString 0) := by
    rw [hlabels_eq, List.map_map, List.map_map]
    rfl
  have hlines_pairs : st.leaderLines.map (fun ll => (ll.sliceId, ll.labelIndex)) =
      (st.slices.filter (fun e =>
        decide ((labelForSlice t config ov e.1 e.2).anchorMode =
          LabelAnchorMode.outside))).map (fun e => (e.1, 0)) := by
    rw [hstlines]
    exact computeLabelGeometry_lines_ids t config ov st.slices
  have hleaderIds : st.leaderLines.map
      (fun ll => "leader-line-" ++ ll.sliceId ++ "-" ++ toString ll.labelIndex) =
      ((st.slices.filter (fun e =>
        decide ((labelForSlice t config ov e.1 e.2).anchorMode =
          LabelAnchorMode.outside))).map Prod.fst).map
        (fun k => "leader-line-" ++ k ++ "-" ++ toString 0) := by
    have h2 : st.leaderLines.map
        (fun ll => "leader-line-" ++ ll.sliceId ++ "-" ++ toString ll.labelIndex) =
        (st.leaderLines.map (fun ll => (ll.sliceId, ll.labelIndex))).map
          (fun p => "leader-line-" ++ p.1 ++ "-" ++ toString p.2) := by
      rw [List.map_map]
      rfl
    rw [h2, hlines_pairs, List.map_map, List.map_map]
    rfl
  have hleadLen : st.leaderLines.length =
      ((st.slices.filter (fun e =>
        decide ((labelForSlice t config ov e.1 e.2).anchorMode =
          LabelAnchorMode.outside))).map Prod.fst).length := by
    have hcg := congrArg List.length hlines_pairs
    rw [List.length_map, List.length_map] at hcg
    rw [hcg, List.length_map]
  have hTS : ∀ k ∈ (st.slices.filter (fun e =>
      decide ((labelForSlice t config ov e.1 e.2).anchorMode =
        LabelAnchorMode.outside))).map Prod.fst, k ∈ st.slices.map Prod.fst := by
    intro k hk
    obtain ⟨e, he, rfl⟩ := List.mem_map.mp hk
    exact List.mem_map_of_mem _ (List.mem_of_mem_filter he)
  have hTnodup : ((st.slices.filter (fun e =>
      decide ((labelForSlice t config ov e.1 e.2).anchorMode =
        LabelAnchorMode.outside))).map Prod.fst).Nodup :=
    List.Nodup.sublist (List.Sublist.map _ (List.filter_sublist _)) hSnodup
  have hTform : ∀ k ∈ (st.slices.filter (fun e =>
      decide ((labelForSlice t config ov e.1 e.2).anchorMode =
        LabelAnchorMode.outside))).map Prod.fst, ∃ r, k = "slice-" ++ r :=
    fun k hk => hSform k (hTS k hk)
  have hP := buildPieSceneGraph_idparents st (by rw [hstconfig]; exact hinner) hstanno
  have hids : (preorderNode (buildPieSceneGraph st)).map SceneNode.id =
      "chart-root" :: "main-ring" ::
        ((st.slices.map Prod.fst).flatMap
            (fun k => [k ++ "-group", k ++ "-arc", k ++ "-pct"]) ++
          "labels-layer" ::
            ((st.slices.map Prod.fst).map (fun k => k ++ "-label-" ++ toString 0) ++
              ((st.slices.filter (fun e =>
                decide ((labelForSlice t config ov e.1 e.2).anchorMode =
                  LabelAnchorMode.outside))).map Prod.fst).map
                (fun k => "leader-line-" ++ k ++ "-" ++ toString 0))) := by
    have h1 : (preorderNode (buildPieSceneGraph st)).map SceneNode.id =
        ((preorderNode (buildPieSceneGraph st)).map
          (fun n => (n.id, n.parentId))).map Prod.fst := by
      rw [List.map_map]
      rfl
    have hlabelIds' : st.labels.map (fun lg => lg.labelId) =
        st.slices.map (fun e => e.1 ++ "-label-" ++ toString 0) := by
      rw [hlabelIds, List.map_map]
      rfl
    have hleaderIds' : st.leaderLines.map
        (fun ll => "leader-line-" ++ ll.sliceId ++ "-" ++ toString ll.labelIndex) =
        (st.slices.filter (fun e =>
          decide ((labelForSlice t config ov e.1 e.2).anchorMode =
            LabelAnchorMode.outside))).map
          (fun e => "leader-line-" ++ e.1 ++ "-" ++ toString 0) := by
      rw [hleaderIds, List.map_map]
      rfl
    rw [h1, hP]
    simp only [List.map_cons, List.map_append, List.map_flatMap, List.map_map,
      List.map_nil, Function.comp_def]
    rw [hlabelIds', hleaderIds']
  have hnodup : ((preorderNode (buildPieSceneGraph st)).map SceneNode.id).Nodup := by
    rw [hids]
    exact nodeIds_nodup _ _ hSnodup hTnodup hSform hTform
  have hnodes := scene_nodes_eq st theme hnodup
  have hkeys : (resolveSceneGraph st theme).nodes.map Prod.fst =
      (preorderNode (buildPieSceneGraph st)).map SceneNode.id := by
    rw [hnodes, List.map_map]
    have hcomp : (Prod.fst ∘ fun n : SceneNode => (n.id, n)) = SceneNode.id := rfl
    rw [hcomp, preorder_applyTransforms_ids]
  refine ⟨?_, ?_, hlabLen, ?_⟩
  · show (applyTransforms theme.nodeTransforms (buildPieSceneGraph st)).parentId =
      Option.none
    rw [applyTransforms_parentId]
    rfl
  · intro kv hkv p hp
    rw [hnodes] at hkv
    obtain ⟨n, hn, rfl⟩ := List.mem_map.mp hkv
    have hpair : (n.id, n.parentId) ∈ (preorderNode (buildPieSceneGraph st)).map
        (fun x => (x.id, x.parentId)) := by
      have hmm := List.mem_map_of_mem (fun x : SceneNode => (x.id, x.parentId)) hn
      rw [preorder_applyTransforms_idparent] at hmm
      exact hmm
    rw [hP] at hpair
    have hnp : n.parentId = some p := hp
    have hpmem : p ∈ (preorderNode (buildPieSceneGraph st)).map SceneNode.id := by
      rw [hids]
      have hmem_mr : "main-ring" ∈ ("chart-root" :: "main-ring" ::
          ((st.slices.map Prod.fst).flatMap
              (fun k => [k ++ "-group", k ++ "-arc", k ++ "-pct"]) ++
            "labels-layer" ::
              ((st.slices.map Prod.fst).map (fun k => k ++ "-label-" ++ toString 0) ++
                ((st.slices.filter (fun e =>
                  decide ((labelForSlice t config ov e.1 e.2).anchorMode =
                    LabelAnchorMode.outside))).map Prod.fst).map
                  (fun k => "leader-line-" ++ k ++ "-" ++ toString 0)))) := by
        exact List.mem_cons_of_mem _ (List.mem_cons_self _ _)
      rcases List.mem_cons.mp hpair with h | hpair
      · rw [Prod.mk.injEq] at h
        rw [h.2] at hnp
        exact absurd hnp (by simp)
      rcases List.mem_cons.mp hpair with h | hpair
      · rw [Prod.mk.injEq] at h
        rw [h.2] at hnp
        obtain rfl := Option.some.inj hnp
        exact List.mem_cons_self _ _
      rcases List.mem_append.mp hpair with h | hpair
      · obtain ⟨k, hkS, hmem3⟩ := List.mem_flatMap.mp h
        simp only [List.mem_cons, List.not_mem_nil, or_false] at hmem3
        have hgrp : (k ++ "-group") ∈ ("chart-root" :: "main-ring" ::
            ((st.slices.map Prod.fst).flatMap
                (fun k => [k ++ "-group", k ++ "-arc", k ++ "-pct"]) ++
              "labels-layer" ::
                ((st.slices.map Prod.fst).map (fun k => k ++ "-label-" ++ toString 0) ++
                  ((st.slices.filter (fun e =>
                    decide ((labelForSlice t config ov e.1 e.2).anchorMode =
                      LabelAnchorMode.outside))).map Prod.fst).map
                    (fun k => "leader-line-" ++ k ++ "-" ++ toString 0)))) := by
          refine List.mem_cons_of_mem _ (List.mem_cons_of_mem _
            (List.mem_append_left _ ?_))
          exact List.mem_flatMap.mpr ⟨k, hkS, by simp⟩
        rcases hmem3 with h | h | h
        · rw [Prod.mk.injEq] at h
          rw [h.2] at hnp
          obtain rfl := Option.some.inj hnp
          exact hmem_mr
        · rw [Prod.mk.injEq] at h
          rw [h.2] at hnp
          obtain rfl := Option.some.inj hnp
          exact hgrp
        · rw [Prod.mk.injEq] at h
          rw [h.2] at hnp
          obtain rfl := Option.some.inj hnp
          exact hgrp
      have hmem_cr : "chart-root" ∈ ("chart-root" :: "main-ring" ::
          ((st.slices.map Prod.fst).flatMap
              (fun k => [k ++ "-group", k ++ "-arc", k ++ "-pct"]) ++
            "labels-layer" ::
              ((st.slices.map Prod.fst).map (fun k => k ++ "-label-" ++ toString 0) ++
                ((st.slices.filter (fun e =>
                  decide ((labelForSlice t config ov e.1 e.2).anchorMode =
                    LabelAnchorMode.outside))).map Prod.fst).map
                  (fun k => "leader-line-" ++ k ++ "-" ++ toString 0)))) :=
        List.mem_cons_self _ _
      have hmem_ll : "labels-layer" ∈ ("chart-root" :: "main-ring" ::
          ((st.slices.map Prod.fst).flatMap
              (fun k => [k ++ "-group", k ++ "-arc", k ++ "-pct"]) ++
            "labels-layer" ::
              ((st.slices.map Prod.fst).map (fun k => k ++ "-label-" ++ toString 0) ++
                ((st.slices.filter (fun e =>
                  decide ((labelForSlice t config ov e.1 e.2).anchorMode =
                    LabelAnchorMode.outside))).map Prod.fst).map
                  (fun k => "leader-line-" ++ k ++ "-" ++ toString 0)))) := by
        refine List.mem_cons_of_mem _ (List.mem_cons_of_mem _
          (List.mem_append_right _ ?_))
        exact List.mem_cons_self _ _
      rcases List.mem_cons.mp hpair with h | hpair
      · rw [Prod.mk.injEq] at h
        rw [h.2] at hnp
        obtain rfl := Option.some.inj hnp
        exact hmem_cr
      rcases List.mem_append.mp hpair with h | h
      · obtain ⟨lg, _, heq⟩ := List.mem_map.mp h
        rw [Prod.mk.injEq] at heq
        rw [← heq.2] at hnp
        obtain rfl := Option.some.inj hnp
        exact hmem_ll
      · obtain ⟨ll, _, heq⟩ := List.mem_map.mp h
        rw [Prod.mk.injEq] at heq
        rw [← heq.2] at hnp
        obtain rfl := Option.some.inj hnp
        exact hmem_ll
    obtain ⟨m, hm⟩ := mapGet_eq_some_of_mem_keys p _ (by rw [hkeys]; exact hpmem)
    exact ⟨m, hm⟩
  · rw [hnodes, List.length_map]
    have hlen : (preorderNode (applyTransforms theme.nodeTransforms
        (buildPieSceneGraph st))).length =
        ((preorderNode (buildPieSceneGraph st)).map SceneNode.id).length := by
      rw [← preorder_applyTransforms_ids theme.nodeTransforms (buildPieSceneGraph st)]
      rw [List.length_map]
    rw [hlen, hids]
    simp only [List.length_cons, List.length_append, flatMap_three_length,
      List.length_map]
    rw [hlabLen]
    rw [hleadLen]
    simp only [List.length_map]
    omega

theorem C3_witness :
    witnessConfig.innerRadius = 0 ∧ createEmptyOverrides.annotations = [] ∧
    ((resolveSceneGraph (resolveGeometry trigQ
          (processPieData witnessData1 defaultProcessorConfig) witnessConfig
          createEmptyOverrides) DEFAULT_THEME).root.parentId = Option.none
      ∧ (∀ kv ∈ (resolveSceneGraph (resolveGeometry trigQ
            (processPieData witnessData1 defaultProcessorConfig) witnessConfig
            createEmptyOverrides) DEFAULT_THEME).nodes, ∀ p, kv.2.parentId = some p →
          ∃ m, mapGet p (resolveSceneGraph (resolveGeometry trigQ
            (processPieData witnessData1 defaultProcessorConfig) witnessConfig
            createEmptyOverrides) DEFAULT_THEME).nodes = some m)
      ∧ (resolveGeometry trigQ (processPieData witnessData1 defaultProcessorConfig)
          witnessConfig createEmptyOverrides).labels.length =
          (resolveGeometry trigQ (processPieData witnessData1 defaultProcessorConfig)
            witnessConfig createEmptyOverrides).slices.length
      ∧ (resolveSceneGraph (resolveGeometry trigQ
            (processPieData witnessData1 defaultProcessorConfig) witnessConfig
            createEmptyOverrides) DEFAULT_THEME).nodes.length =
          1 + 1 + 3 * (resolveGeometry trigQ
            (processPieData witnessData1 defaultProcessorConfig) witnessConfig
            createEmptyOverrides).slices.length
            + 1 + (resolveGeometry trigQ
              (processPieData witnessData1 defaultProcessorConfig) witnessConfig
              createEmptyOverrides).labels.length
            + (resolveGeometry trigQ
              (processPieData witnessData1 defaultProcessorConfig) witnessConfig
              createEmptyOverrides).leaderLines.length) :=
  ⟨rfl, rfl,
    C3_scene_graph_parents_and_count trigQ witnessData1 defaultProcessorConfig
      witnessConfig createEmptyOverrides DEFAULT_THEME rfl rfl⟩

end ChartEngine
